import Mathlib

/-!
# BalancedGoUpdate: the command-line driver (`balancedUpdate.go`)

A shallow embedding of `outputStanza` and `main`.  The driver is a straight-line
program over the package `lib` (graphs, decompositions, the `DetKDecomp` solver,
the reductions and their restore maps).  That package is kept abstract: its types
are the fields of `Types`, its functions the fields of `Lib`, and every statement
below is quantified over them.  The run of `main` is instrumented with a trace of
`Event`s (library calls, prints, files created) and ends in an `Outcome`.

Not represented: the wall-clock timings (`times`), the log output and `GOMAXPROCS`.
Approximate mode shares the variable `decomp` between `main` and its search goroutine
without synchronisation.  The steps of the goroutine are taken as atomic; the `World`
says after how many of them the timer fires, and how many more complete between the
restore block of `main` and its last reads of `decomp`.  After a timeout the trace
holds the calls of the goroutine that were completed when the timer fired.  Go's `int`
is `Int`; the loop counters would need `2^63` solver runs to wrap.
-/

namespace BalancedGoUpdate

/-- The parsed command line: one field per flag, plus whether `flagSet.Parse` failed. -/
structure Flags where
  parseError : Bool
  cpuprofile : String
  logging : Bool
  computeSubedges : Bool
  width : Int
  graphPath : String
  globalBal : Bool
  balanceFactorFlag : Int
  useHeuristic : Int
  gyo : Bool
  typeC : Bool
  hingeFlag : Bool
  numCPUs : Int
  bench : Bool
  detKTest : Bool
  localBIP : Bool
  gml : String
  jsonFlag : String
  pace : Bool
  exactFlag : Bool
  approx : Int
  decomp : String
  cache : String
  exportCache : Bool
  nice : Bool
  ensemble : Bool

/-- The environment of a run: the file system (`ioutil.ReadFile`, `os.Create`), which
of the two ensemble goroutines delivers first, how many loop iterations of a width
search are observed, and the timer of approximate mode.  `timer = none`: the search
goroutine delivers on `ch` before `time.After`.  `timer = some t`: the timer fires when
the goroutine has completed `t` steps (step 1 is its first `FindDecomp` with the
assignment to `decomp`, every further step one iteration of the descent), unless the
goroutine has ended by then.  `lateSteps`: after a timeout the goroutine keeps running;
this is the number of further steps it completes between the restore block of `main`
and the last reads of `decomp` by `main`. -/
structure World where
  readFile : String → Option String
  createOK : String → Bool
  updateFirst : Bool
  fuel : Nat
  timer : Option Nat
  lateSteps : Nat

/-- The types of package `lib` that the driver handles. -/
structure Types where
  Graph : Type
  Edges : Type
  ParseGraph : Type
  Encoding : Type
  Node : Type
  Cache : Type
  HashMap : Type
  Hingetree : Type
  GYOReduct : Type
  RemovalMap : Type
  State : Type

/-- Modelled from the spec: the declaration of `Decomp` (package `lib`), "root DecompNode
plus a reference to the graph it was computed against"; the driver reads and writes
exactly the fields `Root` and `Graph`. -/
structure Decomp (T : Types) where
  Graph : T.Graph
  Root : T.Node

/-- The solver `DetKDecomp`: the four fields of the composite literal in `main`, and
its unexported state. -/
structure DetKDecomp (T : Types) where
  K : Int
  Graph : T.Graph
  BalFactor : Int
  SubEdge : Bool
  state : T.State

/-- The functions of package `lib` called by the driver.  Methods that change the
solver return its new unexported state. -/
structure Lib (T : Types) where
  zeroGraph : T.Graph
  zeroParseGraph : T.ParseGraph
  zeroHingetree : T.Hingetree
  zeroDecomp : Decomp T
  zeroCache : T.Cache
  zeroState : T.State
  nilRemovalMap : T.RemovalMap
  GetGraph : String → T.Graph × T.ParseGraph
  GetNiceGraph : String → T.Graph × T.ParseGraph × Int
  GetGraphPACE : String → T.Graph
  Encoding : T.ParseGraph → T.Encoding
  GetDecomp : String → T.Graph → T.Encoding → Decomp T
  GetCache : String → T.Cache
  Init : T.Cache → T.Cache
  Edges : T.Graph → T.Edges
  setEdges : T.Graph → T.Edges → T.Graph
  Len : T.Edges → Int
  GetDegreeOrder : T.Edges → T.Edges
  GetMaxSepOrder : T.Edges → T.Edges
  GetMSCOrder : T.Edges → T.Edges
  GetEdgeDegreeOrder : T.Edges → T.Edges
  TypeCollapse : T.Graph → T.Graph × T.RemovalMap × Int
  GYOReduct : T.Graph → T.Graph × List T.GYOReduct
  ComputeSubEdges : T.Graph → Int → T.Graph
  GetHingeTree : T.Graph → T.Hingetree
  SceneCreation : Decomp T → T.Graph → T.HashMap
  Correct : Decomp T → T.Graph → Bool
  CheckWidth : Decomp T → Int
  RestoreSubedges : Decomp T → Decomp T
  RestoreGYO : T.Node → List T.GYOReduct → T.Node × Bool
  RestoreTypes : T.Node → T.RemovalMap → T.Node × Bool
  deepEqualZero : Decomp T → Bool
  Name : DetKDecomp T → String
  FindDecomp : DetKDecomp T → Decomp T × T.State
  FindDecompUpdate : DetKDecomp T → T.Graph → T.HashMap → T.Cache → Decomp T × T.State
  widthState : T.State → Int → T.State
  SolverCache : DetKDecomp T → T.Cache
  DecompHinge : T.Hingetree → DetKDecomp T → T.Graph → Decomp T × T.State
  Marshal : T.Cache → Option String

/-- Modelled from the spec: `SetWidth` of `DetKDecomp` (package `lib`), which stores the
new width bound K; what it does to the unexported state ("restart with a cleared
cache") is `widthState`. -/
def SetWidth {T : Types} (L : Lib T) (s : DetKDecomp T) (K : Int) : DetKDecomp T :=
  ⟨K, s.Graph, s.BalFactor, s.SubEdge, L.widthState s.state K⟩

/-- The files the driver creates. -/
inductive FileKind where
  | profile
  | gml
  | json
  | cache
  deriving DecidableEq

/-- What one call of `outputStanza` was given and what it did. -/
structure Stanza (T : Types) where
  algorithm : String
  decomp : Decomp T
  graph : T.Graph
  K : Int
  skipCheck : Bool
  width : Int
  correct : Bool
  gmlCreated : Bool
  jsonCreated : Bool
  panicked : Bool

/-- The observable steps of a run. -/
inductive Event (T : Types) where
  | print (msg : String)
  | usage
  | create (kind : FileKind) (path : String)
  | heuristic (n : Int)
  | typeCollapse
  | gyoReduct
  | computeSubEdges (K : Int)
  | getHingeTree
  | sceneCreation (graph : T.Graph)
  | setWidth (K : Int)
  | findDecomp (K : Int) (result : Decomp T)
  | decompHinge (K : Int) (result : Decomp T)
  | findDecompUpdate (K : Int) (graph : T.Graph) (result : Decomp T)
  | restoreGYO (root : T.Node) (ops : List T.GYOReduct) (ok : Bool)
  | restoreTypes (root : T.Node) (removalMap : T.RemovalMap) (ok : Bool)
  | logPanic (msg : String)
  | outputStanza (s : Stanza T)

/-- How a run ends: `main` returns, `check` or `log.Panicln` panics, a method is called
on a nil interface, `log.Fatal` exits, or a width loop is still running when the
observed iterations are used up. -/
inductive Outcome where
  | returned
  | ioPanic
  | restorePanic
  | nilPanic
  | fatal
  | running
  deriving DecidableEq

/-- A trace together with the way the run ended. -/
structure Result (T : Types) where
  trace : List (Event T)
  outcome : Outcome

/-- The width bound of a search call (`FindDecomp`, `DecompHinge`, `FindDecompUpdate`). -/
def Event.searchBound {T : Types} : Event T → Option Int
  | .findDecomp K _ => some K
  | .decompHinge K _ => some K
  | .findDecompUpdate K _ _ => some K
  | _ => none

/-- The result of a search call with its bound. -/
def Event.searchResult {T : Types} : Event T → Option (Int × Decomp T)
  | .findDecomp K d => some (K, d)
  | .decompHinge K d => some (K, d)
  | .findDecompUpdate K _ d => some (K, d)
  | _ => none

/-- The argument of a `SetWidth` call. -/
def Event.widthSet {T : Types} : Event T → Option Int
  | .setWidth K => some K
  | _ => none

/-- A heuristic reordering or a reduction of the graph. -/
def Event.isPreprocessing {T : Types} : Event T → Bool
  | .heuristic _ => true
  | .typeCollapse => true
  | .gyoReduct => true
  | .computeSubEdges _ => true
  | .getHingeTree => true
  | _ => false

/-- A call of `SceneCreation`. -/
def Event.isSceneCreation {T : Types} : Event T → Bool
  | .sceneCreation _ => true
  | _ => false

/-- Every search call in the trace has a width bound of at least 1. -/
def allSearchesPositive {T : Types} (tr : List (Event T)) : Bool :=
  tr.all fun e => match e.searchBound with
    | some K => decide (1 ≤ K)
    | none => true

/-- The trace has no search call at all. -/
def noSearch {T : Types} (tr : List (Event T)) : Bool :=
  tr.all fun e => e.searchBound.isNone

/-- `outputStanza`: restore the subedges, print algorithm, result, width and verdict,
and write the GML and JSON files when the verdict is true and a path is given. -/
def outputStanza {T : Types} (L : Lib T) (w : World) (algorithm : String) (decomp : Decomp T)
    (graph : T.Graph) (gml : String) (json : String) (K : Int) (skipCheck : Bool) : Stanza T :=
  let restored := L.RestoreSubedges decomp
  let correct := if !skipCheck then L.Correct restored graph else true
  let wantGml := correct && decide (gml.length > 0)
  let wantJson := correct && decide (json.length > 0)
  let gmlCreated := wantGml && w.createOK gml
  let gmlPanic := wantGml && !w.createOK gml
  let jsonCreated := !gmlPanic && wantJson && w.createOK json
  let jsonPanic := !gmlPanic && wantJson && !w.createOK json
  { algorithm := algorithm, decomp := decomp, graph := graph, K := K, skipCheck := skipCheck,
    width := L.CheckWidth restored, correct := correct,
    gmlCreated := gmlCreated, jsonCreated := jsonCreated, panicked := gmlPanic || jsonPanic }

/-- The usage check of `main`: parse error, no graph path, or a width `<= 0` when none of
`-exact`, `-nice`, `-approx` is given. -/
def usageCheck (f : Flags) : Bool :=
  f.parseError || f.graphPath == "" ||
    (decide (f.width ≤ 0) && !f.exactFlag && !f.nice && f.approx == 0)

/-- The graph, its parse data and the width after the input file is parsed: `-nice`
reads the width from the file. -/
def parseInput {T : Types} (L : Lib T) (f : Flags) (dat : String) :
    T.Graph × T.ParseGraph × Int :=
  if !f.pace && !f.nice then
    ((L.GetGraph dat).1, (L.GetGraph dat).2, f.width)
  else if f.nice then
    L.GetNiceGraph dat
  else
    (L.GetGraphPACE dat, L.zeroParseGraph, f.width)

/-- The composite literal `&DetKDecomp{K: *width, Graph: parsedGraph, BalFactor: ..., SubEdge: ...}`. -/
def newDet {T : Types} (L : Lib T) (f : Flags) (width : Int) (parsedGraph : T.Graph) :
    DetKDecomp T :=
  { K := width, Graph := parsedGraph, BalFactor := f.balanceFactorFlag, SubEdge := f.localBIP,
    state := L.zeroState }

/-- The variables of `main` that the preprocessing block leaves behind. -/
structure Prep (T : Types) where
  trace : List (Event T)
  parsedGraph : T.Graph
  removalMap : T.RemovalMap
  ops : List T.GYOReduct
  hinget : T.Hingetree

/-- The edge ordering chosen by `-heuristic` (the `switch` of `main`). -/
def heuristicOrder {T : Types} (L : Lib T) (n : Int) (g : T.Graph) : T.Graph :=
  if n = 1 then L.setEdges g (L.GetDegreeOrder (L.Edges g))
  else if n = 2 then L.setEdges g (L.GetMaxSepOrder (L.Edges g))
  else if n = 3 then L.setEdges g (L.GetMSCOrder (L.Edges g))
  else if n = 4 then L.setEdges g (L.GetEdgeDegreeOrder (L.Edges g))
  else g

/-- Heuristic ordering, type collapse, GYO reduction, subedges and hinge tree, in the
order of `main`. -/
def preprocess {T : Types} (L : Lib T) (f : Flags) (width : Int) (parsedGraph : T.Graph) :
    Prep T :=
  let g1 := if f.useHeuristic > 0 then heuristicOrder L f.useHeuristic parsedGraph else parsedGraph
  let tr1 : List (Event T) :=
    if f.useHeuristic > 0 then
      .heuristic f.useHeuristic :: (if !f.bench then [.print "Time for heuristic"] else [])
    else []
  let reduced1 := if f.typeC then (L.TypeCollapse g1).1 else L.zeroGraph
  let removalMap := if f.typeC then (L.TypeCollapse g1).2.1 else L.nilRemovalMap
  let g2 := if f.typeC then reduced1 else g1
  let tr2 : List (Event T) :=
    if f.typeC then
      .typeCollapse :: (if !f.bench then [.print "Graph after Type Collapse:"] else [])
    else []
  let gyoIn := if f.typeC then reduced1 else g2
  let ops := if f.gyo then (L.GYOReduct gyoIn).2 else []
  let g3 := if f.gyo then (L.GYOReduct gyoIn).1 else g2
  let tr3 : List (Event T) :=
    if f.gyo then
      .gyoReduct :: (if !f.bench then [.print "Graph after GYO:"] else [])
    else []
  let sub := f.globalBal && !f.computeSubedges
  let g4 := if sub then L.ComputeSubEdges g3 width else g3
  let tr4 : List (Event T) :=
    if sub then [.computeSubEdges width, .print "Graph with subedges"] else []
  let hinget := if f.hingeFlag then L.GetHingeTree g4 else L.zeroHingetree
  let tr5 : List (Event T) :=
    if f.hingeFlag then
      .getHingeTree :: (if !f.bench then [.print "Produced Hingetree: "] else [])
    else []
  { trace := tr1 ++ tr2 ++ tr3 ++ tr4 ++ tr5, parsedGraph := g4, removalMap := removalMap,
    ops := ops, hinget := hinget }

/-- One search call of the fresh path: `hinget.DecompHinge(solver, parsedGraph)` under
`-h`, `solver.FindDecomp()` otherwise. -/
def search {T : Types} (L : Lib T) (hingeFlag : Bool) (hinget : T.Hingetree)
    (parsedGraph : T.Graph) (solver : DetKDecomp T) : Decomp T × T.State :=
  if hingeFlag then L.DecompHinge hinget solver parsedGraph else L.FindDecomp solver

/-- The trace entry of the search call made by `search`. -/
def searchEvent {T : Types} (L : Lib T) (hingeFlag : Bool) (hinget : T.Hingetree)
    (parsedGraph : T.Graph) (solver : DetKDecomp T) : Event T :=
  if hingeFlag then .decompHinge solver.K (L.DecompHinge hinget solver parsedGraph).1
  else .findDecomp solver.K (L.FindDecomp solver).1

/-- The variables a width loop leaves behind, and whether it has ended. -/
structure LoopOut (T : Types) where
  finished : Bool
  decomp : Decomp T
  k : Int
  solver : DetKDecomp T
  trace : List (Event T)

/-- The solver after a method call has changed its unexported state. -/
def DetKDecomp.setState {T : Types} (s : DetKDecomp T) (st : T.State) : DetKDecomp T :=
  ⟨s.K, s.Graph, s.BalFactor, s.SubEdge, st⟩

/-- The same loop result with earlier events put in front of its trace. -/
def LoopOut.after {T : Types} (evs : List (Event T)) (r : LoopOut T) : LoopOut T :=
  ⟨r.finished, r.decomp, r.k, r.solver, evs ++ r.trace⟩

/-- The body shared by both width loops, `solver.SetWidth(k)` followed by one search
call: the decomposition found and the solver afterwards. -/
def searchAt {T : Types} (L : Lib T) (hingeFlag : Bool) (hinget : T.Hingetree)
    (parsedGraph : T.Graph) (solver : DetKDecomp T) (k : Int) : Decomp T × DetKDecomp T :=
  ((search L hingeFlag hinget parsedGraph (SetWidth L solver k)).1,
    (SetWidth L solver k).setState (search L hingeFlag hinget parsedGraph (SetWidth L solver k)).2)

/-- The two trace entries of `searchAt`. -/
def searchAtTrace {T : Types} (L : Lib T) (hingeFlag : Bool) (hinget : T.Hingetree)
    (parsedGraph : T.Graph) (solver : DetKDecomp T) (k : Int) : List (Event T) :=
  [.setWidth k, searchEvent L hingeFlag hinget parsedGraph (SetWidth L solver k)]

/-- The loop of exact mode, `for !solved`, entered with the counter `k`: set the width,
search, check, increment. -/
def exactLoop {T : Types} (L : Lib T) (hingeFlag : Bool) (hinget : T.Hingetree)
    (parsedGraph : T.Graph) : Nat → DetKDecomp T → Decomp T → Int → LoopOut T
  | 0, solver, decomp, k => ⟨false, decomp, k, solver, []⟩
  | fuel + 1, solver, _, k =>
    if L.Correct (searchAt L hingeFlag hinget parsedGraph solver k).1 parsedGraph then
      ⟨true, (searchAt L hingeFlag hinget parsedGraph solver k).1, k + 1,
        (searchAt L hingeFlag hinget parsedGraph solver k).2,
        searchAtTrace L hingeFlag hinget parsedGraph solver k⟩
    else
      (exactLoop L hingeFlag hinget parsedGraph fuel
        (searchAt L hingeFlag hinget parsedGraph solver k).2
        (searchAt L hingeFlag hinget parsedGraph solver k).1 (k + 1)).after
        (searchAtTrace L hingeFlag hinget parsedGraph solver k)

/-- The descent loop of approximate mode, `for !solved`, entered with the best
decomposition so far and `k`: search at `k - 1`, accept the result when it is correct,
stop at the first result that is not. -/
def approxLoop {T : Types} (L : Lib T) (hingeFlag : Bool) (hinget : T.Hingetree)
    (parsedGraph : T.Graph) : Nat → DetKDecomp T → Decomp T → Int → LoopOut T
  | 0, solver, decomp, k => ⟨false, decomp, k, solver, []⟩
  | fuel + 1, solver, decomp, k =>
    if L.Correct (searchAt L hingeFlag hinget parsedGraph solver (k - 1)).1 parsedGraph then
      (approxLoop L hingeFlag hinget parsedGraph fuel
        (searchAt L hingeFlag hinget parsedGraph solver (k - 1)).2
        (searchAt L hingeFlag hinget parsedGraph solver (k - 1)).1
        (L.CheckWidth (searchAt L hingeFlag hinget parsedGraph solver (k - 1)).1)).after
        (searchAtTrace L hingeFlag hinget parsedGraph solver (k - 1))
    else
      ⟨true, decomp, k, (searchAt L hingeFlag hinget parsedGraph solver (k - 1)).2,
        searchAtTrace L hingeFlag hinget parsedGraph solver (k - 1)⟩

/-- The search goroutine of approximate mode, run to its end: a first `FindDecomp` at
the solver's initial bound, then the descent.  (`k := ceil(m / 2)` is overwritten
before it is read.) -/
def approxSearch {T : Types} (L : Lib T) (hingeFlag : Bool) (hinget : T.Hingetree)
    (parsedGraph : T.Graph) (fuel : Nat) (solver : DetKDecomp T) : LoopOut T :=
  (approxLoop L hingeFlag hinget parsedGraph fuel (solver.setState (L.FindDecomp solver).2)
    (L.FindDecomp solver).1 (L.CheckWidth (L.FindDecomp solver).1)).after
    [.findDecomp solver.K (L.FindDecomp solver).1]

/-- The two restore calls of `main`: GYO first, then types; `none` is the panic. -/
def restore {T : Types} (L : Lib T) (decomp : Decomp T) (ops : List T.GYOReduct)
    (removalMap : T.RemovalMap) : List (Event T) × Option (Decomp T) :=
  let g := L.RestoreGYO decomp.Root ops
  if !g.2 then
    ([.restoreGYO decomp.Root ops false, .print "Partial decomp:",
      .logPanic "GYO reduction failed"], none)
  else
    let t := L.RestoreTypes g.1 removalMap
    if !t.2 then
      ([.restoreGYO decomp.Root ops true, .restoreTypes g.1 removalMap false,
        .print "Partial decomp:", .logPanic "Type Collapse reduction failed"], none)
    else
      ([.restoreGYO decomp.Root ops true, .restoreTypes g.1 removalMap true],
        some ⟨decomp.Graph, t.1⟩)

/-- The same run with earlier events put in front of its trace. -/
def Result.after {T : Types} (evs : List (Event T)) (r : Result T) : Result T :=
  ⟨evs ++ r.trace, r.outcome⟩

/-- Export of the solver's cache to `gml + ".cache"`: create the file, marshal, write. -/
def writeCache {T : Types} (L : Lib T) (w : World) (gml : String) (solver : DetKDecomp T) :
    Result T :=
  if !w.createOK (gml ++ ".cache") then ⟨[], .ioPanic⟩
  else if (L.Marshal (L.SolverCache solver)).isNone then
    ⟨[.create .cache (gml ++ ".cache")], .ioPanic⟩
  else ⟨[.create .cache (gml ++ ".cache")], .returned⟩

/-- The restore block `if <cond> { RestoreGYO ...; RestoreTypes ... }` of both paths. -/
def restoreIf {T : Types} (L : Lib T) (cond : Bool) (decomp : Decomp T)
    (ops : List T.GYOReduct) (removalMap : T.RemovalMap) :
    List (Event T) × Option (Decomp T) :=
  if cond then restore L decomp ops removalMap else ([], some decomp)

/-- The restore block after the events `pre` of a path, followed by the rest `fin` of the
path: a restore call that returns `false` panics (`log.Panicln`), otherwise the path
goes on with the restored decomposition. -/
def restoreThen {T : Types} (L : Lib T) (cond : Bool) (decomp : Decomp T)
    (ops : List T.GYOReduct) (removalMap : T.RemovalMap) (pre : List (Event T))
    (fin : Decomp T → Result T) : Result T :=
  match (restoreIf L cond decomp ops removalMap).2 with
  | none => ⟨pre ++ (restoreIf L cond decomp ops removalMap).1, .restorePanic⟩
  | some decomp1 => (fin decomp1).after (pre ++ (restoreIf L cond decomp ops removalMap).1)

/-- The search of the update path: `FindDecompUpdate` alone, or under `-ensemble` raced
against `solverEnsemble.FindDecomp()`; `none` is a call on a nil `solverEnsemble`.
Both goroutines are recorded as started, the one that delivers first leading; the
solver is left in the state of the delivering call. -/
def updateSearch {T : Types} (L : Lib T) (w : World) (f : Flags) (solverUpdate : DetKDecomp T)
    (solverEnsemble : Option (DetKDecomp T)) (parsedGraph : T.Graph) (scenes : T.HashMap)
    (parsedCache : T.Cache) : Option (List (Event T) × Decomp T × DetKDecomp T) :=
  let upd := L.FindDecompUpdate solverUpdate parsedGraph scenes parsedCache
  let evU : Event T := .findDecompUpdate solverUpdate.K parsedGraph upd.1
  if f.ensemble then
    match solverEnsemble with
    | none => none
    | some e =>
      let fresh := L.FindDecomp e
      let evF : Event T := .findDecomp e.K fresh.1
      if w.updateFirst then some ([evU, evF], upd.1, solverUpdate.setState upd.2)
      else some ([evF, evU], fresh.1, solverUpdate.setState fresh.2)
  else some ([evU], upd.1, solverUpdate.setState upd.2)

/-- The end of the update path: `outputStanza` against `parsedGraph`, then the cache
file when `-gml` is given. -/
def finishUpdate {T : Types} (L : Lib T) (w : World) (f : Flags) (width : Int) (p : Prep T)
    (solverUpdate : DetKDecomp T) (decomp : Decomp T) : Result T :=
  let st := outputStanza L w (L.Name solverUpdate) decomp p.parsedGraph f.gml f.jsonFlag width
    false
  if st.panicked then ⟨[.outputStanza st], .ioPanic⟩
  else if f.gml.length > 0 then (writeCache L w f.gml solverUpdate).after [.outputStanza st]
  else ⟨[.outputStanza st], .returned⟩

/-- The update path of `main` (the second `if *decomp != ""` block), entered after
preprocessing. -/
def updatePath {T : Types} (L : Lib T) (w : World) (f : Flags) (width : Int) (p : Prep T)
    (solverUpdate solverEnsemble : Option (DetKDecomp T)) (parsedDecomp : Decomp T)
    (parsedCache : T.Cache) : Result T :=
  let scenes := L.SceneCreation parsedDecomp p.parsedGraph
  let tr0 : List (Event T) := [.sceneCreation p.parsedGraph, .print "Extracted scenes: "]
  match solverUpdate with
  | none => ⟨tr0 ++ [.print "No supported update Algorithm chosen."], .returned⟩
  | some su =>
    match updateSearch L w f su solverEnsemble p.parsedGraph scenes parsedCache with
    | none => ⟨tr0, .nilPanic⟩
    | some (trS, decomp, su1) =>
      restoreThen L (!L.deepEqualZero decomp) decomp p.ops p.removalMap (tr0 ++ trS)
        (finishUpdate L w f width p su1)

/-- The search goroutine of approximate mode after `t` completed steps: before step 1
`decomp` is still the zero value and `k` the estimate `ceil(m / 2)`; step 1 is the first
`FindDecomp`, each further step one iteration of the descent. -/
def approxProgress {T : Types} (L : Lib T) (hingeFlag : Bool) (hinget : T.Hingetree)
    (parsedGraph : T.Graph) : Nat → DetKDecomp T → LoopOut T
  | 0, solver => ⟨false, L.zeroDecomp, (L.Len (L.Edges parsedGraph) + 1) / 2, solver, []⟩
  | t + 1, solver => approxSearch L hingeFlag hinget parsedGraph t solver

/-- The number of assignments to `decomp` made by the goroutine of approximate mode, read
off its trace: the first `FindDecomp`, then every result of the descent that passed
`Correct`. -/
def storeCount {T : Types} (L : Lib T) (parsedGraph : T.Graph) : List (Event T) → Nat
  | [] => 0
  | _ :: tr => 1 + ((tr.filterMap Event.searchResult).filter
      fun x => L.Correct x.2 parsedGraph).length

/-- The `select` of approximate mode: the result of the goroutine when it arrives first,
otherwise the timer case, `*width = decomp.CheckWidth()` on what `decomp` holds. -/
def approxSelect {T : Types} (L : Lib T) (w : World) (hingeFlag : Bool) (hinget : T.Hingetree)
    (parsedGraph : T.Graph) (solver : DetKDecomp T) : LoopOut T :=
  match w.timer with
  | none => approxSearch L hingeFlag hinget parsedGraph w.fuel solver
  | some t =>
    if (approxProgress L hingeFlag hinget parsedGraph t solver).finished then
      approxProgress L hingeFlag hinget parsedGraph t solver
    else
      ⟨true, (approxProgress L hingeFlag hinget parsedGraph t solver).decomp,
        L.CheckWidth (approxProgress L hingeFlag hinget parsedGraph t solver).decomp,
        (approxProgress L hingeFlag hinget parsedGraph t solver).solver,
        (approxProgress L hingeFlag hinget parsedGraph t solver).trace⟩

/-- The three search modes of the fresh path: exact, approximate, plain.  The `k` of
the result is the value stored in `*width`. -/
def runMode {T : Types} (L : Lib T) (w : World) (f : Flags) (width : Int) (p : Prep T)
    (solver : DetKDecomp T) : LoopOut T :=
  if f.exactFlag then
    let r := exactLoop L f.hingeFlag p.hinget p.parsedGraph w.fuel solver L.zeroDecomp 1
    ⟨r.finished, r.decomp, r.k - 1, r.solver, r.trace⟩
  else if f.approx > 0 then
    approxSelect L w f.hingeFlag p.hinget p.parsedGraph solver
  else
    let r := search L f.hingeFlag p.hinget p.parsedGraph solver
    ⟨true, r.1, width, solver.setState r.2,
      [searchEvent L f.hingeFlag p.hinget p.parsedGraph solver]⟩

/-- What the goroutine of approximate mode has assigned to `decomp` after the restore
block of `main`, if anything: only after a timeout, when the goroutine made a further
assignment within its `lateSteps` further steps. -/
def lateStore {T : Types} (L : Lib T) (w : World) (f : Flags) (p : Prep T)
    (solver : DetKDecomp T) : Option (Decomp T) :=
  if f.exactFlag then none
  else if f.approx > 0 then
    match w.timer with
    | none => none
    | some t =>
      if (approxProgress L f.hingeFlag p.hinget p.parsedGraph t solver).finished then none
      else if storeCount L p.parsedGraph
          (approxProgress L f.hingeFlag p.hinget p.parsedGraph t solver).trace
        < storeCount L p.parsedGraph
          (approxProgress L f.hingeFlag p.hinget p.parsedGraph (t + w.lateSteps) solver).trace then
        some (approxProgress L f.hingeFlag p.hinget p.parsedGraph (t + w.lateSteps) solver).decomp
      else none
  else none

/-- The `-exportCache` block at the end of the fresh path.  The type assertion
`solver.(UpdateAlgorithm)` holds for `*DetKDecomp`, the only solver. -/
def exportCacheBlock {T : Types} (L : Lib T) (w : World) (f : Flags) (solver : DetKDecomp T) :
    Result T :=
  if f.exportCache then
    if f.gml == "" then
      ⟨[.print "Cannot export cache: You need to specify GML output location as well."],
        .returned⟩
    else writeCache L w f.gml solver
  else ⟨[], .returned⟩

/-- The assignment `decomp.Graph = originalGraph`, made when the decomposition is not the
empty `Decomp{}`. -/
def setGraph {T : Types} (L : Lib T) (originalGraph : T.Graph) (decomp : Decomp T) : Decomp T :=
  if !L.deepEqualZero decomp then ⟨originalGraph, decomp.Root⟩ else decomp

/-- The end of the fresh path: the graph of a non-empty decomposition is set to
`originalGraph`, `outputStanza` runs against `originalGraph`, then the cache export. -/
def finishFresh {T : Types} (L : Lib T) (w : World) (f : Flags) (originalGraph : T.Graph)
    (m : LoopOut T) (decomp : Decomp T) : Result T :=
  let st := outputStanza L w (L.Name m.solver) (setGraph L originalGraph decomp) originalGraph
    f.gml f.jsonFlag m.k false
  if st.panicked then ⟨[.outputStanza st], .ioPanic⟩
  else (exportCacheBlock L w f m.solver).after [.outputStanza st]

/-- The condition of the restore block of the fresh path. -/
def freshRestoreCond {T : Types} (L : Lib T) (p : Prep T) (decomp : Decomp T) : Bool :=
  !L.deepEqualZero decomp ||
    (decide (p.ops.length > 0) && L.Len (L.Edges p.parsedGraph) == 0)

/-- The fresh path once a solver is chosen: search, restore, output.  The end of the
path reads `decomp` again: after a timeout of approximate mode it finds what the
goroutine has assigned since the restore block, if anything. -/
def solveFresh {T : Types} (L : Lib T) (w : World) (f : Flags) (width : Int)
    (originalGraph : T.Graph) (p : Prep T) (s : DetKDecomp T) : Result T :=
  let m := runMode L w f width p s
  if !m.finished then ⟨m.trace, .running⟩
  else
    restoreThen L (freshRestoreCond L p m.decomp) m.decomp p.ops p.removalMap m.trace
      (fun decomp1 => finishFresh L w f originalGraph m ((lateStore L w f p s).getD decomp1))

/-- The fresh-search path of `main`, entered after preprocessing. -/
def freshPath {T : Types} (L : Lib T) (w : World) (f : Flags) (width : Int)
    (originalGraph : T.Graph) (p : Prep T) : Result T :=
  let solver : Option (DetKDecomp T) :=
    if f.detKTest then some (newDet L f width p.parsedGraph) else none
  let chosen : Nat := if f.detKTest then 1 else 0
  if chosen > 1 then
    ⟨[.print "Only one algorithm may be chosen at a time. Make up your mind."], .returned⟩
  else
    match solver with
    | none => ⟨[.print "No algorithm or procedure selected."], .returned⟩
    | some s => solveFresh L w f width originalGraph p s

/-- The variables of `main` after the shortcut block, or the finished run. -/
inductive Shortcut (T : Types) where
  | done (r : Result T)
  | go (solverUpdate solverEnsemble : Option (DetKDecomp T)) (parsedDecomp : Decomp T)
      (parsedCache : T.Cache)

/-- The shortcut taken when the parsed decomposition is already correct: the message,
then `outputStanza(solverUpdate.Name(), parsedDecomp, ..., true)`. -/
def shortcutOutput {T : Types} (L : Lib T) (w : World) (f : Flags) (width : Int)
    (parsedGraph : T.Graph) (solverUpdate : Option (DetKDecomp T)) (parsedDecomp : Decomp T) :
    Result T :=
  match solverUpdate with
  | none =>
    ⟨[.print " Parsed Decomposition already correct, skipping update computation."], .nilPanic⟩
  | some su =>
    ⟨[.print " Parsed Decomposition already correct, skipping update computation.",
        .outputStanza
          (outputStanza L w (L.Name su) parsedDecomp parsedGraph f.gml f.jsonFlag width true)],
      if (outputStanza L w (L.Name su) parsedDecomp parsedGraph f.gml f.jsonFlag width
        true).panicked then .ioPanic else .returned⟩

/-- The first `if *decomp != ""` block of `main`: choose the update solver, parse the
decomposition, and stop with its output when it is already correct. -/
def shortcut {T : Types} (L : Lib T) (w : World) (f : Flags) (width : Int)
    (parsedGraph originalGraph : T.Graph) (parseGraph : T.ParseGraph) : Shortcut T :=
  if f.decomp != "" then
    let det := newDet L f width parsedGraph
    let solverUpdate := if f.detKTest then some det else none
    let solverEnsemble := if f.detKTest && f.ensemble then some det else none
    match w.readFile f.decomp with
    | none => .done ⟨[], .ioPanic⟩
    | some dis =>
      let parsedDecomp := L.GetDecomp dis parsedGraph (L.Encoding parseGraph)
      if L.Correct parsedDecomp originalGraph then
        .done (shortcutOutput L w f width parsedGraph solverUpdate parsedDecomp)
      else if f.cache != "" then
        match w.readFile f.cache with
        | none => .done ⟨[], .ioPanic⟩
        | some dat => .go solverUpdate solverEnsemble parsedDecomp (L.GetCache dat)
      else .go solverUpdate solverEnsemble parsedDecomp (L.Init L.zeroCache)
  else .go none none L.zeroDecomp L.zeroCache

/-- The part of `main` after the graph file is parsed. -/
def afterParse {T : Types} (L : Lib T) (w : World) (f : Flags) (width : Int)
    (parsedGraph : T.Graph) (parseGraph : T.ParseGraph) : Result T :=
  match shortcut L w f width parsedGraph parsedGraph parseGraph with
  | .done r => r
  | .go solverUpdate solverEnsemble parsedDecomp parsedCache =>
    if f.decomp != "" then
      (updatePath L w f width (preprocess L f width parsedGraph) solverUpdate solverEnsemble
        parsedDecomp parsedCache).after (preprocess L f width parsedGraph).trace
    else
      (freshPath L w f width parsedGraph (preprocess L f width parsedGraph)).after
        (preprocess L f width parsedGraph).trace

/-- The events of `main` before the usage check: the parse error message and the CPU
profile file. -/
def prologue {T : Types} (f : Flags) : List (Event T) :=
  (if f.parseError then [.print "Parse Error:"] else []) ++
    (if f.cpuprofile != "" then [.create .profile f.cpuprofile] else [])

/-- The driver `main`. -/
def main {T : Types} (L : Lib T) (w : World) (f : Flags) : Result T :=
  if f.cpuprofile != "" && !w.createOK f.cpuprofile then
    ⟨if f.parseError then [.print "Parse Error:"] else [], .fatal⟩
  else if usageCheck f then ⟨prologue f ++ [.usage], .returned⟩
  else
    match w.readFile f.graphPath with
    | none => ⟨prologue f, .ioPanic⟩
    | some dat =>
      (afterParse L w f (parseInput L f dat).2.2 (parseInput L f dat).1
        (parseInput L f dat).2.1).after (prologue f)

/-! ## A small instance of the library

Graphs and decomposition nodes are natural numbers: graph `n` needs width `n`, and node
`r` is a decomposition of graph `r` of width `r`.  Files are parsed by their length.
Each reduction lowers the graph by one and its restore map raises the node again. -/

/-- The types of the small instance. -/
abbrev toyTypes : Types :=
  { Graph := Nat, Edges := Nat, ParseGraph := Unit, Encoding := Unit, Node := Nat,
    Cache := Unit, HashMap := Unit, Hingetree := Unit, GYOReduct := Unit,
    RemovalMap := Nat, State := Unit }

/-- The solver of the small instance: it succeeds exactly when the bound reaches the
graph. -/
def toyFind (g : Nat) (K : Int) : Decomp toyTypes × Unit :=
  if (g : Int) ≤ K then (⟨g, g⟩, ()) else (⟨(0 : Nat), (0 : Nat)⟩, ())

/-- The functions of the small instance. -/
def toyLib : Lib toyTypes :=
  { zeroGraph := (0 : Nat), zeroParseGraph := (), zeroHingetree := (),
    zeroDecomp := ⟨(0 : Nat), (0 : Nat)⟩, zeroCache := (), zeroState := (),
    nilRemovalMap := (0 : Nat),
    GetGraph := fun s => (s.length, ()),
    GetNiceGraph := fun s => (s.length, (), 0),
    GetGraphPACE := fun s => s.length,
    Encoding := fun _ => (),
    GetDecomp := fun dis g _ => ⟨g, dis.length⟩,
    GetCache := fun _ => (),
    Init := fun c => c,
    Edges := fun (g : Nat) => g,
    setEdges := fun g _ => g,
    Len := fun (e : Nat) => (e : Int),
    GetDegreeOrder := fun e => e,
    GetMaxSepOrder := fun e => e,
    GetMSCOrder := fun e => e,
    GetEdgeDegreeOrder := fun e => e,
    TypeCollapse := fun (g : Nat) => (g - 1, (1 : Nat), 1),
    GYOReduct := fun (g : Nat) => (g - 1, [()]),
    ComputeSubEdges := fun (g : Nat) _ => g,
    GetHingeTree := fun _ => (),
    SceneCreation := fun _ _ => (),
    Correct := fun d (g : Nat) => decide (d.Root = g) && decide (0 < g),
    CheckWidth := fun d => ((d.Root : Nat) : Int),
    RestoreSubedges := fun d => d,
    RestoreGYO := fun (n : Nat) ops => (n + ops.length, true),
    RestoreTypes := fun (n : Nat) (m : Nat) => (n + m, true),
    deepEqualZero := fun d => decide (d.Graph = (0 : Nat)) && decide (d.Root = (0 : Nat)),
    Name := fun _ => "DetKDecomp",
    FindDecomp := fun s => toyFind s.Graph s.K,
    FindDecompUpdate := fun s g _ _ => toyFind g s.K,
    widthState := fun _ _ => (),
    SolverCache := fun _ => (),
    DecompHinge := fun _ s g => toyFind g s.K,
    Marshal := fun _ => some "" }

/-- A file system with two graph files and two decomposition files, where every file
can be created. -/
def toyWorld : World :=
  { readFile := fun p =>
      if p = "g3" then some "abc" else if p = "g2" then some "ab"
      else if p = "d3" then some "xyz" else if p = "d1" then some "x" else none,
    createOK := fun _ => true, updateFirst := true, fuel := 8, timer := none, lateSteps := 0 }

/-- The defaults of the flag set, with the graph file `g3`. -/
def baseFlags : Flags :=
  { parseError := false, cpuprofile := "", logging := false, computeSubedges := false,
    width := 0, graphPath := "g3", globalBal := false, balanceFactorFlag := 2,
    useHeuristic := 0, gyo := false, typeC := false, hingeFlag := false, numCPUs := -1,
    bench := false, detKTest := false, localBIP := false, gml := "", jsonFlag := "",
    pace := false, exactFlag := false, approx := 0, decomp := "", cache := "",
    exportCache := false, nice := false, ensemble := false }

/-! ## The width loops -/

/-- The widths `k, k + 1, ..., k + n - 1`. -/
def widthsUp (k : Int) (n : Nat) : List Int :=
  (List.range n).map fun (i : Nat) => k + (i : Int)

/-- The search results of a trace, in order. -/
def searchResults {T : Types} (tr : List (Event T)) : List (Int × Decomp T) :=
  tr.filterMap Event.searchResult

/-- The arguments of the `SetWidth` calls of a trace, in order. -/
def widthsSet {T : Types} (tr : List (Event T)) : List Int :=
  tr.filterMap Event.widthSet

/-- A library whose solver, at every bound `K >= 1`, returns the same decomposition of
width 5: its results are never correct at a bound below 1, but their width is not
bounded by `K`. -/
def loopLib : Lib toyTypes :=
  { toyLib with
    Correct := fun d _ => decide (d.Root = (5 : Nat)),
    FindDecomp := fun s => if 1 ≤ s.K then (⟨(5 : Nat), (5 : Nat)⟩, ()) else (⟨(0 : Nat), (0 : Nat)⟩, ()),
    DecompHinge := fun _ s _ =>
      if 1 ≤ s.K then (⟨(5 : Nat), (5 : Nat)⟩, ()) else (⟨(0 : Nat), (0 : Nat)⟩, ()) }

/-- Flags of an approximate-mode run with `DetKDecomp` that leave `-width` at 0. -/
def approxFlags : Flags :=
  { baseFlags with detKTest := true, approx := 5 }

/-- Flags of an exact-mode run with `DetKDecomp`. -/
def exactFlags : Flags :=
  { baseFlags with detKTest := true, exactFlag := true }

/-- Flags of a run with `DetKDecomp`, a negative `-approx` and `-width` left at 0. -/
def negApproxFlags : Flags :=
  { baseFlags with detKTest := true, approx := -1 }

/-- Flags of a plain run with `DetKDecomp` at width 3. -/
def plainFlags : Flags :=
  { baseFlags with detKTest := true, width := 3 }

/-- The kinds of trace events: messages and the profile file, preprocessing calls,
scene creation, `SetWidth` and search calls, restore calls, `outputStanza`, and the
cache file. -/
inductive Kind where
  | info
  | prep
  | scene
  | step
  | restore
  | stanza
  | cacheFile
  deriving DecidableEq

/-- The kind of an event. -/
def Event.kind {T : Types} : Event T → Kind
  | .print _ => .info
  | .usage => .info
  | .logPanic _ => .info
  | .create .cache _ => .cacheFile
  | .create _ _ => .info
  | .heuristic _ => .prep
  | .typeCollapse => .prep
  | .gyoReduct => .prep
  | .computeSubEdges _ => .prep
  | .getHingeTree => .prep
  | .sceneCreation _ => .scene
  | .setWidth _ => .step
  | .findDecomp _ _ => .step
  | .decompHinge _ _ => .step
  | .findDecompUpdate _ _ _ => .step
  | .restoreGYO _ _ _ => .restore
  | .restoreTypes _ _ _ => .restore
  | .outputStanza _ => .stanza

/-- A restore call that returned `result = false`. -/
def Event.isRestoreFailure {T : Types} : Event T → Bool
  | .restoreGYO _ _ ok => !ok
  | .restoreTypes _ _ ok => !ok
  | _ => false

/-- What `main` checks about a decomposition it hands to `outputStanza`: without
`skipCheck` the verdict is `Correct` of the decomposition (its subedges restored)
against the graph passed; with `skipCheck` the verdict is `true` and the decomposition
passed `Correct` against that graph before the call; and files are created only on a
true verdict. -/
def Stanza.checked {T : Types} (L : Lib T) (st : Stanza T) : Prop :=
  (st.skipCheck = false → st.correct = L.Correct (L.RestoreSubedges st.decomp) st.graph) ∧
  (st.skipCheck = true → st.correct = true ∧ L.Correct st.decomp st.graph = true) ∧
  (st.gmlCreated = true ∨ st.jsonCreated = true → st.correct = true)

/-- The run `r` ends in the restore block: events `pre` that hold the search which
produced `d` (or `d` is the zero value) and no restore call, `outputStanza` call or
cache file, then the restore block on `d` with `ops` and `removalMap`, then, unless it
panics, an `outputStanza` call with the check on, on a decomposition with the root of
`late` when the goroutine has assigned `late` to `decomp` since, and with the restored
root otherwise. -/
def EndsInRestore {T : Types} (L : Lib T) (r : Result T) (ops : List T.GYOReduct)
    (removalMap : T.RemovalMap) (late : Option (Decomp T)) : Prop :=
  ∃ (c : Bool) (d : Decomp T) (pre : List (Event T)) (fin : Decomp T → Result T),
    r = restoreThen L c d ops removalMap pre fin ∧
    (∀ e ∈ pre, e.kind ≠ .restore ∧ e.kind ≠ .stanza ∧ e.kind ≠ .cacheFile) ∧
    (d = L.zeroDecomp ∨ ∃ K, (K, d) ∈ searchResults pre) ∧
    (∀ d1, ∃ st tl, (fin d1).trace = .outputStanza st :: tl ∧ st.skipCheck = false ∧
      st.decomp.Root = (late.getD d1).Root ∧ ∀ e ∈ tl, e.kind ≠ .restore)

/-- What the goroutine of approximate mode has assigned to `decomp` after the restore
block in the run of `main`, if anything: `lateStore` on the fresh path. -/
def mainLateStore {T : Types} (L : Lib T) (w : World) (f : Flags) : Option (Decomp T) :=
  match w.readFile f.graphPath with
  | none => none
  | some dat =>
    if f.decomp != "" then none
    else lateStore L w f (preprocess L f (parseInput L f dat).2.2 (parseInput L f dat).1)
      (newDet L f (parseInput L f dat).2.2
        (preprocess L f (parseInput L f dat).2.2 (parseInput L f dat).1).parsedGraph)

/-- The small library with a solver that uses its whole width budget: at a bound `K`
that reaches the graph it returns a decomposition of width `K`, correct for every
graph up to `K`. -/
def slackLib : Lib toyTypes :=
  { toyLib with
    Correct := fun d (g : Nat) => decide (g ≤ (d.Root : Nat)) && decide (0 < g),
    FindDecomp := fun s =>
      if ((s.Graph : Nat) : Int) ≤ s.K then (⟨s.Graph, s.K.toNat⟩, ())
      else (⟨(0 : Nat), (0 : Nat)⟩, ()) }

/-- The file system of `toyWorld` with a timer that fires after the first step of the
goroutine of approximate mode, which then completes one more step before `main` reads
`decomp` for the output. -/
def raceWorld : World :=
  { toyWorld with timer := some 1, lateSteps := 1 }

/-- Flags of an approximate-mode run with `DetKDecomp`, GYO reduction and `-width 7`. -/
def raceFlags : Flags :=
  { baseFlags with detKTest := true, approx := 5, gyo := true, width := 7 }

/-- The small library with a GYO restore that fails. -/
def failLib : Lib toyTypes :=
  { toyLib with RestoreGYO := fun (n : Nat) _ => (n, false) }

/-- Flags of an update run with `DetKDecomp` and type collapse: the old decomposition
`d1` is not correct for the graph `g3`. -/
def updateFlags : Flags :=
  { baseFlags with width := 3, decomp := "d1", detKTest := true, typeC := true }

/-- Flags of the fresh run on the same graph with the same reduction. -/
def freshFlags : Flags :=
  { baseFlags with width := 3, detKTest := true, typeC := true }

/-- Flags of a run that supplies the decomposition `d3`, correct for `g3`, with `-det`. -/
def shortcutFlags : Flags :=
  { baseFlags with width := 3, decomp := "d3", detKTest := true }

/-- Flags of a run that supplies the decomposition `d3`, correct for `g3`, without
`-det`. -/
def noSolverFlags : Flags :=
  { baseFlags with width := 3, decomp := "d3" }

theorem widthsUp_succ (k : Int) (n : Nat) : widthsUp k (n + 1) = k :: widthsUp (k + 1) n := by
  unfold widthsUp
  rw [List.range_succ_eq_map, List.map_cons, List.map_map]
  simp only [Nat.cast_zero, add_zero, List.cons.injEq, true_and]
  apply List.map_congr_left
  intro i _
  simp only [Function.comp, Nat.cast_succ]
  ring

theorem SetWidth_K {T : Types} (L : Lib T) (s : DetKDecomp T) (k : Int) :
    (SetWidth L s k).K = k := rfl

theorem searchEvent_result {T : Types} (L : Lib T) (hingeFlag : Bool) (hinget : T.Hingetree)
    (g : T.Graph) (s : DetKDecomp T) :
    (searchEvent L hingeFlag hinget g s).searchResult
      = some (s.K, (search L hingeFlag hinget g s).1) := by
  unfold searchEvent search
  cases hingeFlag <;> simp [Event.searchResult]

theorem searchEvent_bound {T : Types} (L : Lib T) (hingeFlag : Bool) (hinget : T.Hingetree)
    (g : T.Graph) (s : DetKDecomp T) :
    (searchEvent L hingeFlag hinget g s).searchBound = some s.K := by
  unfold searchEvent
  cases hingeFlag <;> simp [Event.searchBound]

theorem searchEvent_widthSet {T : Types} (L : Lib T) (hingeFlag : Bool) (hinget : T.Hingetree)
    (g : T.Graph) (s : DetKDecomp T) :
    (searchEvent L hingeFlag hinget g s).widthSet = none := by
  unfold searchEvent
  cases hingeFlag <;> simp [Event.widthSet]

theorem widthsSet_step {T : Types} (L : Lib T) (hingeFlag : Bool) (hinget : T.Hingetree)
    (g : T.Graph) (s : DetKDecomp T) (k : Int) (tr : List (Event T)) :
    widthsSet (searchAtTrace L hingeFlag hinget g s k ++ tr) = k :: widthsSet tr := by
  unfold widthsSet searchAtTrace
  rw [List.cons_append, List.cons_append, List.nil_append,
    List.filterMap_cons_some (show (Event.setWidth k : Event T).widthSet = some k from rfl),
    List.filterMap_cons_none (searchEvent_widthSet L hingeFlag hinget g _)]

theorem searchResults_step {T : Types} (L : Lib T) (hingeFlag : Bool) (hinget : T.Hingetree)
    (g : T.Graph) (s : DetKDecomp T) (k : Int) (tr : List (Event T)) :
    searchResults (searchAtTrace L hingeFlag hinget g s k ++ tr)
      = (k, (searchAt L hingeFlag hinget g s k).1) :: searchResults tr := by
  unfold searchResults searchAtTrace searchAt
  rw [List.cons_append, List.cons_append, List.nil_append,
    List.filterMap_cons_none (show (Event.setWidth k : Event T).searchResult = none from rfl),
    List.filterMap_cons_some (searchEvent_result L hingeFlag hinget g _), SetWidth_K]

theorem exactLoop_correct {T : Types} (L : Lib T) (hingeFlag : Bool) (hinget : T.Hingetree)
    (g : T.Graph) (n : Nat) (solver : DetKDecomp T) (d0 : Decomp T) (k : Int)
    (hc : L.Correct (searchAt L hingeFlag hinget g solver k).1 g = true) :
    exactLoop L hingeFlag hinget g (n + 1) solver d0 k
      = ⟨true, (searchAt L hingeFlag hinget g solver k).1, k + 1,
          (searchAt L hingeFlag hinget g solver k).2, searchAtTrace L hingeFlag hinget g solver k⟩ := by
  simp only [exactLoop, hc, if_true]

theorem exactLoop_incorrect {T : Types} (L : Lib T) (hingeFlag : Bool) (hinget : T.Hingetree)
    (g : T.Graph) (n : Nat) (solver : DetKDecomp T) (d0 : Decomp T) (k : Int)
    (hc : L.Correct (searchAt L hingeFlag hinget g solver k).1 g = false) :
    exactLoop L hingeFlag hinget g (n + 1) solver d0 k
      = (exactLoop L hingeFlag hinget g n (searchAt L hingeFlag hinget g solver k).2
          (searchAt L hingeFlag hinget g solver k).1 (k + 1)).after
          (searchAtTrace L hingeFlag hinget g solver k) := by
  simp only [exactLoop, hc, Bool.false_eq_true, if_false]

/-- What a finished run of the exact loop entered at `k` has done. -/
theorem exactLoop_spec {T : Types} (L : Lib T) (hingeFlag : Bool) (hinget : T.Hingetree)
    (g : T.Graph) :
    ∀ (fuel : Nat) (solver : DetKDecomp T) (d0 : Decomp T) (k : Int),
      (exactLoop L hingeFlag hinget g fuel solver d0 k).finished = true →
      k < (exactLoop L hingeFlag hinget g fuel solver d0 k).k ∧
      widthsSet (exactLoop L hingeFlag hinget g fuel solver d0 k).trace
        = widthsUp k ((exactLoop L hingeFlag hinget g fuel solver d0 k).k - k).toNat ∧
      (searchResults (exactLoop L hingeFlag hinget g fuel solver d0 k).trace).map Prod.fst
        = widthsUp k ((exactLoop L hingeFlag hinget g fuel solver d0 k).k - k).toNat ∧
      L.Correct (exactLoop L hingeFlag hinget g fuel solver d0 k).decomp g = true ∧
      ∀ K d, (K, d) ∈ searchResults (exactLoop L hingeFlag hinget g fuel solver d0 k).trace →
        k ≤ K ∧ K < (exactLoop L hingeFlag hinget g fuel solver d0 k).k ∧
        (K < (exactLoop L hingeFlag hinget g fuel solver d0 k).k - 1 → L.Correct d g = false) ∧
        (K = (exactLoop L hingeFlag hinget g fuel solver d0 k).k - 1 →
          d = (exactLoop L hingeFlag hinget g fuel solver d0 k).decomp) := by
  intro fuel
  induction fuel with
  | zero => intro solver d0 k h; simp [exactLoop] at h
  | succ n ih =>
    intro solver d0 k h
    cases hc : L.Correct (searchAt L hingeFlag hinget g solver k).1 g
    · rw [exactLoop_incorrect L hingeFlag hinget g n solver d0 k hc] at h ⊢
      simp only [LoopOut.after] at h ⊢
      obtain ⟨h1, h2, h3, h4, h5⟩ := ih _ _ _ h
      have hlen : ∀ r : Int, k + 1 < r → (r - k).toNat = (r - (k + 1)).toNat + 1 := by
        intro r hr; omega
      refine ⟨by omega, ?_, ?_, h4, ?_⟩
      · rw [hlen _ h1, widthsUp_succ, ← h2, widthsSet_step]
      · rw [hlen _ h1, widthsUp_succ, ← h3, searchResults_step, List.map_cons]
      · intro K d hmem
        rw [searchResults_step, List.mem_cons] at hmem
        rcases hmem with hmem | hmem
        · obtain ⟨rfl, rfl⟩ := Prod.mk.inj hmem
          exact ⟨le_refl _, by omega, fun _ => hc, fun hK => by omega⟩
        · obtain ⟨a, b, c, e⟩ := h5 K d hmem
          exact ⟨by omega, b, c, e⟩
    · rw [exactLoop_correct L hingeFlag hinget g n solver d0 k hc]
      have hone : (k + 1 - k).toNat = 1 := by simp
      have hw : widthsUp k 1 = [k] := by simp [widthsUp, List.range_succ]
      have htr : searchAtTrace L hingeFlag hinget g solver k
          = searchAtTrace L hingeFlag hinget g solver k ++ [] := by simp
      simp only [hone, hw]
      rw [htr, widthsSet_step, searchResults_step]
      refine ⟨by omega, by simp [widthsSet], by simp [searchResults], hc, ?_⟩
      intro K d hmem
      simp only [searchResults, List.filterMap_nil, List.mem_singleton] at hmem
      obtain ⟨rfl, rfl⟩ := Prod.mk.inj hmem
      exact ⟨le_refl _, by omega, by omega, fun _ => rfl⟩

theorem exactLoop_last {T : Types} (L : Lib T) (hingeFlag : Bool) (hinget : T.Hingetree)
    (g : T.Graph) :
    ∀ (fuel : Nat) (solver : DetKDecomp T) (d0 : Decomp T) (k : Int),
      (exactLoop L hingeFlag hinget g fuel solver d0 k).finished = true →
      ((exactLoop L hingeFlag hinget g fuel solver d0 k).k - 1,
        (exactLoop L hingeFlag hinget g fuel solver d0 k).decomp)
        ∈ searchResults (exactLoop L hingeFlag hinget g fuel solver d0 k).trace := by
  intro fuel
  induction fuel with
  | zero => intro solver d0 k h; simp [exactLoop] at h
  | succ n ih =>
    intro solver d0 k h
    cases hc : L.Correct (searchAt L hingeFlag hinget g solver k).1 g
    · rw [exactLoop_incorrect L hingeFlag hinget g n solver d0 k hc] at h ⊢
      simp only [LoopOut.after] at h ⊢
      rw [searchResults_step]
      exact List.mem_cons_of_mem _ (ih _ _ _ h)
    · rw [exactLoop_correct L hingeFlag hinget g n solver d0 k hc]
      have htr : searchAtTrace L hingeFlag hinget g solver k
          = searchAtTrace L hingeFlag hinget g solver k ++ [] := by simp
      simp only
      rw [htr, searchResults_step]
      simp

theorem exactLoop_mono {T : Types} (L : Lib T) (hingeFlag : Bool) (hinget : T.Hingetree)
    (g : T.Graph) :
    ∀ (n : Nat) (solver : DetKDecomp T) (d0 : Decomp T) (k : Int),
      (exactLoop L hingeFlag hinget g n solver d0 k).finished = true →
      ∀ m, n ≤ m → exactLoop L hingeFlag hinget g m solver d0 k
        = exactLoop L hingeFlag hinget g n solver d0 k := by
  intro n
  induction n with
  | zero => intro solver d0 k h; simp [exactLoop] at h
  | succ n ih =>
    intro solver d0 k h m hm
    obtain ⟨m, rfl⟩ : ∃ m', m = m' + 1 := ⟨m - 1, by omega⟩
    cases hc : L.Correct (searchAt L hingeFlag hinget g solver k).1 g
    · rw [exactLoop_incorrect L hingeFlag hinget g n solver d0 k hc] at h ⊢
      rw [exactLoop_incorrect L hingeFlag hinget g m solver d0 k hc]
      simp only [LoopOut.after] at h
      rw [ih _ _ _ h m (by omega)]
    · rw [exactLoop_correct L hingeFlag hinget g n solver d0 k hc,
        exactLoop_correct L hingeFlag hinget g m solver d0 k hc]

/-- While the exact loop is running, it has made as many searches as iterations were
observed and every result so far was incorrect. -/
theorem exactLoop_running {T : Types} (L : Lib T) (hingeFlag : Bool) (hinget : T.Hingetree)
    (g : T.Graph) :
    ∀ (n : Nat) (solver : DetKDecomp T) (d0 : Decomp T) (k : Int),
      (exactLoop L hingeFlag hinget g n solver d0 k).finished = false →
      (searchResults (exactLoop L hingeFlag hinget g n solver d0 k).trace).length = n ∧
      ∀ K d, (K, d) ∈ searchResults (exactLoop L hingeFlag hinget g n solver d0 k).trace →
        L.Correct d g = false := by
  intro n
  induction n with
  | zero =>
    intro solver d0 k _
    exact ⟨rfl, fun K d hmem => by simp [exactLoop, searchResults] at hmem⟩
  | succ n ih =>
    intro solver d0 k h
    cases hc : L.Correct (searchAt L hingeFlag hinget g solver k).1 g
    · rw [exactLoop_incorrect L hingeFlag hinget g n solver d0 k hc] at h ⊢
      simp only [LoopOut.after] at h ⊢
      rw [searchResults_step]
      obtain ⟨hlen, hall⟩ := ih _ _ _ h
      refine ⟨by rw [List.length_cons, hlen], ?_⟩
      intro K d hmem
      rcases List.mem_cons.1 hmem with hmem | hmem
      · obtain ⟨rfl, rfl⟩ := Prod.mk.inj hmem
        exact hc
      · exact hall K d hmem
    · rw [exactLoop_correct L hingeFlag hinget g n solver d0 k hc] at h
      simp at h

theorem approxLoop_accept {T : Types} (L : Lib T) (hingeFlag : Bool) (hinget : T.Hingetree)
    (g : T.Graph) (n : Nat) (solver : DetKDecomp T) (d : Decomp T) (k : Int)
    (hc : L.Correct (searchAt L hingeFlag hinget g solver (k - 1)).1 g = true) :
    approxLoop L hingeFlag hinget g (n + 1) solver d k
      = (approxLoop L hingeFlag hinget g n (searchAt L hingeFlag hinget g solver (k - 1)).2
          (searchAt L hingeFlag hinget g solver (k - 1)).1
          (L.CheckWidth (searchAt L hingeFlag hinget g solver (k - 1)).1)).after
          (searchAtTrace L hingeFlag hinget g solver (k - 1)) := by
  simp only [approxLoop, hc, if_true]

theorem approxLoop_reject {T : Types} (L : Lib T) (hingeFlag : Bool) (hinget : T.Hingetree)
    (g : T.Graph) (n : Nat) (solver : DetKDecomp T) (d : Decomp T) (k : Int)
    (hc : L.Correct (searchAt L hingeFlag hinget g solver (k - 1)).1 g = false) :
    approxLoop L hingeFlag hinget g (n + 1) solver d k
      = ⟨true, d, k, (searchAt L hingeFlag hinget g solver (k - 1)).2,
          searchAtTrace L hingeFlag hinget g solver (k - 1)⟩ := by
  simp only [approxLoop, hc, Bool.false_eq_true, if_false]

theorem searchAtTrace_alone {T : Types} (L : Lib T) (hingeFlag : Bool) (hinget : T.Hingetree)
    (g : T.Graph) (s : DetKDecomp T) (k : Int) :
    searchResults (searchAtTrace L hingeFlag hinget g s k)
        = [(k, (searchAt L hingeFlag hinget g s k).1)] ∧
      widthsSet (searchAtTrace L hingeFlag hinget g s k) = [k] := by
  have htr : searchAtTrace L hingeFlag hinget g s k
      = searchAtTrace L hingeFlag hinget g s k ++ [] := by simp
  constructor
  · rw [htr, searchResults_step]; rfl
  · rw [htr, widthsSet_step]; rfl

theorem approxLoop_mono {T : Types} (L : Lib T) (hingeFlag : Bool) (hinget : T.Hingetree)
    (g : T.Graph) :
    ∀ (n : Nat) (solver : DetKDecomp T) (d : Decomp T) (k : Int),
      (approxLoop L hingeFlag hinget g n solver d k).finished = true →
      ∀ m, n ≤ m → approxLoop L hingeFlag hinget g m solver d k
        = approxLoop L hingeFlag hinget g n solver d k := by
  intro n
  induction n with
  | zero => intro solver d k h; simp [approxLoop] at h
  | succ n ih =>
    intro solver d k h m hm
    obtain ⟨m, rfl⟩ : ∃ m', m = m' + 1 := ⟨m - 1, by omega⟩
    cases hc : L.Correct (searchAt L hingeFlag hinget g solver (k - 1)).1 g
    · rw [approxLoop_reject L hingeFlag hinget g n solver d k hc,
        approxLoop_reject L hingeFlag hinget g m solver d k hc]
    · rw [approxLoop_accept L hingeFlag hinget g n solver d k hc] at h ⊢
      rw [approxLoop_accept L hingeFlag hinget g m solver d k hc]
      simp only [LoopOut.after] at h
      rw [ih _ _ _ h m (by omega)]

/-- What a finished descent entered with the decomposition `d` and `k = CheckWidth d` has
done: every search but the last was accepted, the last one ran at the final `k - 1`
and was rejected, and the decomposition kept is the last accepted one (or `d`). -/
theorem approxLoop_spec {T : Types} (L : Lib T) (hingeFlag : Bool) (hinget : T.Hingetree)
    (g : T.Graph) :
    ∀ (fuel : Nat) (solver : DetKDecomp T) (d : Decomp T) (k : Int),
      k = L.CheckWidth d →
      (approxLoop L hingeFlag hinget g fuel solver d k).finished = true →
      ∃ (accepted : List (Int × Decomp T)) (last : Decomp T),
        searchResults (approxLoop L hingeFlag hinget g fuel solver d k).trace
          = accepted ++ [((approxLoop L hingeFlag hinget g fuel solver d k).k - 1, last)] ∧
        L.Correct last g = false ∧
        (∀ x ∈ accepted, L.Correct x.2 g = true) ∧
        (approxLoop L hingeFlag hinget g fuel solver d k).decomp
          = (accepted.map Prod.snd).getLastD d ∧
        (approxLoop L hingeFlag hinget g fuel solver d k).k
          = L.CheckWidth (approxLoop L hingeFlag hinget g fuel solver d k).decomp := by
  intro fuel
  induction fuel with
  | zero => intro solver d k _ h; simp [approxLoop] at h
  | succ n ih =>
    intro solver d k hk h
    cases hc : L.Correct (searchAt L hingeFlag hinget g solver (k - 1)).1 g
    · rw [approxLoop_reject L hingeFlag hinget g n solver d k hc]
      refine ⟨[], (searchAt L hingeFlag hinget g solver (k - 1)).1, ?_, hc, ?_, ?_, hk⟩
      · simp only [(searchAtTrace_alone L hingeFlag hinget g solver (k - 1)).1, List.nil_append]
      · intro x hx; simp at hx
      · simp
    · rw [approxLoop_accept L hingeFlag hinget g n solver d k hc] at h ⊢
      simp only [LoopOut.after] at h ⊢
      obtain ⟨acc, last, h1, h2, h3, h4, h5⟩ := ih _ _ _ rfl h
      refine ⟨(k - 1, (searchAt L hingeFlag hinget g solver (k - 1)).1) :: acc, last,
        ?_, h2, ?_, ?_, h5⟩
      · rw [searchResults_step, h1, List.cons_append]
      · intro x hx
        rcases List.mem_cons.1 hx with rfl | hx
        · exact hc
        · exact h3 x hx
      · rw [h4, List.map_cons, List.getLastD_cons]

theorem approxLoop_terminates {T : Types} (L : Lib T) (hingeFlag : Bool) (hinget : T.Hingetree)
    (g : T.Graph)
    (H1 : ∀ s : DetKDecomp T, s.K < 1 → L.Correct (search L hingeFlag hinget g s).1 g = false)
    (H2 : ∀ s : DetKDecomp T, L.Correct (search L hingeFlag hinget g s).1 g = true →
      L.CheckWidth (search L hingeFlag hinget g s).1 ≤ s.K) :
    ∀ (m : Nat) (solver : DetKDecomp T) (d : Decomp T) (k : Int), k ≤ m →
      ∃ n : Nat, 1 ≤ n ∧ (n : Int) ≤ max k 1 ∧
        (approxLoop L hingeFlag hinget g n solver d k).finished = true ∧
        (widthsSet (approxLoop L hingeFlag hinget g n solver d k).trace).length = n ∧
        (widthsSet (approxLoop L hingeFlag hinget g n solver d k).trace).Pairwise (· > ·) ∧
        (∀ x ∈ widthsSet (approxLoop L hingeFlag hinget g n solver d k).trace, x < k) ∧
        (approxLoop L hingeFlag hinget g n solver d k).k ≤ k := by
  have key : ∀ (solver : DetKDecomp T) (k : Int),
      L.Correct (searchAt L hingeFlag hinget g solver (k - 1)).1 g = true →
      2 ≤ k ∧ L.CheckWidth (searchAt L hingeFlag hinget g solver (k - 1)).1 ≤ k - 1 := by
    intro solver k hc
    constructor
    · by_contra hlt
      have := H1 (SetWidth L solver (k - 1)) (by rw [SetWidth_K]; omega)
      simp only [searchAt] at hc
      rw [this] at hc
      exact Bool.false_ne_true hc
    · have := H2 (SetWidth L solver (k - 1)) hc
      rwa [SetWidth_K] at this
  have rej : ∀ (solver : DetKDecomp T) (d : Decomp T) (k : Int),
      L.Correct (searchAt L hingeFlag hinget g solver (k - 1)).1 g = false →
      ∃ n : Nat, 1 ≤ n ∧ (n : Int) ≤ max k 1 ∧
        (approxLoop L hingeFlag hinget g n solver d k).finished = true ∧
        (widthsSet (approxLoop L hingeFlag hinget g n solver d k).trace).length = n ∧
        (widthsSet (approxLoop L hingeFlag hinget g n solver d k).trace).Pairwise (· > ·) ∧
        (∀ x ∈ widthsSet (approxLoop L hingeFlag hinget g n solver d k).trace, x < k) ∧
        (approxLoop L hingeFlag hinget g n solver d k).k ≤ k := by
    intro solver d k hc
    refine ⟨1, le_refl _, ?_, ?_⟩
    · have : (1 : Int) ≤ max k 1 := le_max_right _ _
      simp
    · rw [approxLoop_reject L hingeFlag hinget g 0 solver d k hc]
      have hws := (searchAtTrace_alone L hingeFlag hinget g solver (k - 1)).2
      refine ⟨rfl, ?_, ?_, ?_, le_refl _⟩
      · show (widthsSet (searchAtTrace L hingeFlag hinget g solver (k - 1))).length = 1
        rw [hws]; rfl
      · show (widthsSet (searchAtTrace L hingeFlag hinget g solver (k - 1))).Pairwise (· > ·)
        rw [hws]; exact List.pairwise_singleton _ _
      · intro x hx
        have hx2 : x ∈ widthsSet (searchAtTrace L hingeFlag hinget g solver (k - 1)) := hx
        rw [hws, List.mem_singleton] at hx2
        omega
  intro m
  induction m with
  | zero =>
    intro solver d k hk
    cases hc : L.Correct (searchAt L hingeFlag hinget g solver (k - 1)).1 g
    · exact rej solver d k hc
    · have := (key solver k hc).1
      simp only [Nat.cast_zero] at hk
      omega
  | succ m ih =>
    intro solver d k hk
    cases hc : L.Correct (searchAt L hingeFlag hinget g solver (k - 1)).1 g
    · exact rej solver d k hc
    · obtain ⟨hk2, hcw⟩ := key solver k hc
      have hm : L.CheckWidth (searchAt L hingeFlag hinget g solver (k - 1)).1 ≤ (m : Int) := by
        push_cast at hk; omega
      obtain ⟨n, hn1, hn2, hfin, hlen, hpw, hlt, hle⟩ :=
        ih (searchAt L hingeFlag hinget g solver (k - 1)).2
          (searchAt L hingeFlag hinget g solver (k - 1)).1 _ hm
      refine ⟨n + 1, by omega, ?_, ?_⟩
      · have h1 : max (L.CheckWidth (searchAt L hingeFlag hinget g solver (k - 1)).1) 1 ≤ k - 1 :=
          max_le hcw (by omega)
        have h2 : k ≤ max k 1 := le_max_left _ _
        push_cast
        omega
      · rw [approxLoop_accept L hingeFlag hinget g n solver d k hc]
        simp only [LoopOut.after]
        rw [widthsSet_step]
        refine ⟨hfin, by simp [hlen], ?_, ?_, by omega⟩
        · rw [List.pairwise_cons]
          refine ⟨fun x hx => ?_, hpw⟩
          have := hlt x hx
          show k - 1 > x
          omega
        · intro x hx
          rcases List.mem_cons.1 hx with rfl | hx
          · omega
          · have := hlt x hx
            omega

/-- The library `loopLib` never yields a correct result at a bound below 1. -/
theorem loopLib_rejects_below_one (hingeFlag : Bool) (s : DetKDecomp toyTypes) (h : s.K < 1) :
    loopLib.Correct (search loopLib hingeFlag () (5 : Nat) s).1 (5 : Nat) = false := by
  have h1 : ¬ (1 ≤ s.K) := by omega
  cases hingeFlag <;> simp [search, loopLib, h1]

/-- With `loopLib` the descent entered at `k = 5` never ends. -/
theorem loopLib_descent_runs (hingeFlag : Bool) :
    ∀ (fuel : Nat) (solver : DetKDecomp toyTypes) (d : Decomp toyTypes),
      (approxLoop loopLib hingeFlag () (5 : Nat) fuel solver d 5).finished = false := by
  intro fuel
  induction fuel with
  | zero => intro solver d; rfl
  | succ n ih =>
    intro solver d
    have hc : loopLib.Correct (searchAt loopLib hingeFlag () (5 : Nat) solver (5 - 1)).1 (5 : Nat)
        = true := by
      cases hingeFlag <;> simp [searchAt, search, SetWidth, loopLib]
    have hw : loopLib.CheckWidth (searchAt loopLib hingeFlag () (5 : Nat) solver (5 - 1)).1 = 5 := by
      cases hingeFlag <;> simp [searchAt, search, SetWidth, loopLib, toyLib]
    rw [approxLoop_accept loopLib hingeFlag () (5 : Nat) n solver d 5 hc, hw]
    exact ih _ _

theorem runMode_exact {T : Types} (L : Lib T) (w : World) (f : Flags) (width : Int) (p : Prep T)
    (s : DetKDecomp T) (hexact : f.exactFlag = true) :
    runMode L w f width p s =
      ⟨(exactLoop L f.hingeFlag p.hinget p.parsedGraph w.fuel s L.zeroDecomp 1).finished,
        (exactLoop L f.hingeFlag p.hinget p.parsedGraph w.fuel s L.zeroDecomp 1).decomp,
        (exactLoop L f.hingeFlag p.hinget p.parsedGraph w.fuel s L.zeroDecomp 1).k - 1,
        (exactLoop L f.hingeFlag p.hinget p.parsedGraph w.fuel s L.zeroDecomp 1).solver,
        (exactLoop L f.hingeFlag p.hinget p.parsedGraph w.fuel s L.zeroDecomp 1).trace⟩ := by
  simp only [runMode, hexact, if_true]

theorem runMode_select {T : Types} (L : Lib T) (w : World) (f : Flags) (width : Int) (p : Prep T)
    (s : DetKDecomp T) (hexact : f.exactFlag = false) (happrox : 0 < f.approx) :
    runMode L w f width p s = approxSelect L w f.hingeFlag p.hinget p.parsedGraph s := by
  simp only [runMode, hexact, Bool.false_eq_true, if_false, gt_iff_lt, happrox, if_true]

theorem runMode_approx {T : Types} (L : Lib T) (w : World) (f : Flags) (width : Int) (p : Prep T)
    (s : DetKDecomp T) (hexact : f.exactFlag = false) (happrox : 0 < f.approx)
    (hw : w.timer = none) :
    runMode L w f width p s = approxSearch L f.hingeFlag p.hinget p.parsedGraph w.fuel s := by
  rw [runMode_select L w f width p s hexact happrox]
  simp only [approxSelect, hw]

/-- A timer that fires only after the goroutine has ended leaves the result of the
goroutine. -/
theorem runMode_late_timer {T : Types} (L : Lib T) (w : World) (f : Flags) (width : Int)
    (p : Prep T) (s : DetKDecomp T) (hexact : f.exactFlag = false) (happrox : 0 < f.approx)
    (t : Nat) (hw : w.timer = some (t + 1))
    (hfin : (approxSearch L f.hingeFlag p.hinget p.parsedGraph t s).finished = true) :
    runMode L w f width p s = approxSearch L f.hingeFlag p.hinget p.parsedGraph t s := by
  rw [runMode_select L w f width p s hexact happrox]
  simp only [approxSelect, hw, approxProgress, hfin, if_true]

theorem runMode_plain {T : Types} (L : Lib T) (w : World) (f : Flags) (width : Int) (p : Prep T)
    (s : DetKDecomp T) (hexact : f.exactFlag = false) (happrox : f.approx ≤ 0) :
    runMode L w f width p s =
      ⟨true, (search L f.hingeFlag p.hinget p.parsedGraph s).1, width,
        s.setState (search L f.hingeFlag p.hinget p.parsedGraph s).2,
        [searchEvent L f.hingeFlag p.hinget p.parsedGraph s]⟩ := by
  have h : ¬ (0 < f.approx) := by omega
  simp only [runMode, hexact, Bool.false_eq_true, if_false, gt_iff_lt, h]

/-- C4. Exact mode is an increment-on-failure search from width 1: when the loop has
ended with reported width `r.k`, `SetWidth` and the search were called for exactly the
widths `1, 2, ..., r.k` in that order, the decomposition kept is the one produced at
width `r.k` and passes `Correct` on the parsed graph, every result at a smaller width
failed `Correct`, and more observed iterations give the same result.  The loop is
still running after the observed iterations only when each of them made a search whose
result failed `Correct`. -/
theorem exact_mode_least_width {T : Types} (L : Lib T) (w : World) (f : Flags) (width : Int)
    (p : Prep T) (s : DetKDecomp T) (r : LoopOut T)
    (hexact : f.exactFlag = true) (hr : runMode L w f width p s = r) :
    (r.finished = true →
      1 ≤ r.k ∧
      widthsSet r.trace = widthsUp 1 r.k.toNat ∧
      (searchResults r.trace).map Prod.fst = widthsUp 1 r.k.toNat ∧
      (r.k, r.decomp) ∈ searchResults r.trace ∧
      (∀ d, (r.k, d) ∈ searchResults r.trace → d = r.decomp) ∧
      L.Correct r.decomp p.parsedGraph = true ∧
      (∀ K d, (K, d) ∈ searchResults r.trace → K < r.k → L.Correct d p.parsedGraph = false) ∧
      (∀ w2 : World, w.fuel ≤ w2.fuel → runMode L w2 f width p s = r)) ∧
    (r.finished = false →
      (searchResults r.trace).length = w.fuel ∧
      ∀ K d, (K, d) ∈ searchResults r.trace → L.Correct d p.parsedGraph = false) := by
  subst hr
  rw [runMode_exact L w f width p s hexact]
  constructor
  · intro hfin
    simp only at hfin ⊢
    obtain ⟨h1, h2, h3, h4, h5⟩ :=
      exactLoop_spec L f.hingeFlag p.hinget p.parsedGraph w.fuel s L.zeroDecomp 1 hfin
    have hlast := exactLoop_last L f.hingeFlag p.hinget p.parsedGraph w.fuel s L.zeroDecomp 1 hfin
    refine ⟨by omega, h2, h3, hlast, fun d hd => (h5 _ d hd).2.2.2 rfl, h4,
      fun K d hd hK => (h5 K d hd).2.2.1 hK, ?_⟩
    intro w2 hw
    rw [runMode_exact L w2 f width p s hexact,
      exactLoop_mono L f.hingeFlag p.hinget p.parsedGraph w.fuel s L.zeroDecomp 1 hfin w2.fuel hw]
  · intro hfin
    exact exactLoop_running L f.hingeFlag p.hinget p.parsedGraph w.fuel s L.zeroDecomp 1 hfin

/-- C4, at a run: exact mode on the graph of width 3 ends with reported width 3. -/
theorem exact_mode_least_width_witness :
    (runMode toyLib toyWorld exactFlags 0 (preprocess toyLib exactFlags 0 (3 : Nat))
        (newDet toyLib exactFlags 0 (3 : Nat))).k = 3 ∧
      widthsSet (runMode toyLib toyWorld exactFlags 0 (preprocess toyLib exactFlags 0 (3 : Nat))
        (newDet toyLib exactFlags 0 (3 : Nat))).trace = widthsUp 1 3 :=
  have h := (exact_mode_least_width toyLib toyWorld exactFlags 0
    (preprocess toyLib exactFlags 0 (3 : Nat)) (newDet toyLib exactFlags 0 (3 : Nat)) _
    rfl rfl).1 rfl
  ⟨rfl, h.2.1⟩

/-- C5: the first decomposition of approximate mode.  At the failing input
`-graph g3 -det -approx 5` (`-width` left at 0, the goroutine delivering before the
timer) the first `FindDecomp` runs at the bound 0 of the flag and fails, its result is
assigned to `decomp` without a `Correct` call, the descent rejects its one search at
bound -1, and the loop ends keeping a decomposition that fails `Correct`; `main` hands
it to `outputStanza`, which reports width 0 and the verdict false. -/
theorem approx_mode_first_unchecked :
    (runMode toyLib toyWorld approxFlags 0 (preprocess toyLib approxFlags 0 (3 : Nat))
        (newDet toyLib approxFlags 0 (3 : Nat))).finished = true ∧
    (runMode toyLib toyWorld approxFlags 0 (preprocess toyLib approxFlags 0 (3 : Nat))
        (newDet toyLib approxFlags 0 (3 : Nat))).trace
      = [.findDecomp 0 ⟨(0 : Nat), (0 : Nat)⟩, .setWidth (-1),
          .findDecomp (-1) ⟨(0 : Nat), (0 : Nat)⟩] ∧
    toyLib.Correct
        (runMode toyLib toyWorld approxFlags 0 (preprocess toyLib approxFlags 0 (3 : Nat))
          (newDet toyLib approxFlags 0 (3 : Nat))).decomp
        (preprocess toyLib approxFlags 0 (3 : Nat)).parsedGraph = false ∧
    (main toyLib toyWorld approxFlags).trace.getLast?
      = some (.outputStanza (outputStanza toyLib toyWorld "DetKDecomp"
          ⟨(0 : Nat), (0 : Nat)⟩ (3 : Nat) "" "" 0 false)) ∧
    (outputStanza toyLib toyWorld "DetKDecomp" ⟨(0 : Nat), (0 : Nat)⟩ (3 : Nat) "" "" 0
      false).correct = false :=
  ⟨rfl, rfl, rfl, rfl, rfl⟩

/-- The goroutine of approximate mode run to its end: the search results are the first
`FindDecomp` at the solver's initial bound, then the accepted results of the descent,
each of which passed `Correct`, then one rejected result found at the final `k - 1`;
the decomposition kept is the last accepted one, or the first when none was
accepted, and the final `k` is its `CheckWidth`. -/
theorem approxSearch_spec {T : Types} (L : Lib T) (hingeFlag : Bool) (hinget : T.Hingetree)
    (g : T.Graph) (fuel : Nat) (s : DetKDecomp T)
    (hfin : (approxSearch L hingeFlag hinget g fuel s).finished = true) :
    ∃ (accepted : List (Int × Decomp T)) (last : Decomp T),
      searchResults (approxSearch L hingeFlag hinget g fuel s).trace
        = (s.K, (L.FindDecomp s).1) ::
          (accepted ++ [((approxSearch L hingeFlag hinget g fuel s).k - 1, last)]) ∧
      L.Correct last g = false ∧
      (∀ x ∈ accepted, L.Correct x.2 g = true) ∧
      (approxSearch L hingeFlag hinget g fuel s).decomp
        = (accepted.map Prod.snd).getLastD (L.FindDecomp s).1 ∧
      (approxSearch L hingeFlag hinget g fuel s).k
        = L.CheckWidth (approxSearch L hingeFlag hinget g fuel s).decomp := by
  simp only [approxSearch, LoopOut.after] at hfin ⊢
  obtain ⟨acc, last, h1, h2, h3, h4, h5⟩ :=
    approxLoop_spec L hingeFlag hinget g fuel _ _ _ rfl hfin
  refine ⟨acc, last, ?_, h2, h3, h4, h5⟩
  simp only [searchResults, List.singleton_append, List.filterMap_cons, Event.searchResult]
  exact congrArg _ h1

theorem widthsSet_approxSearch {T : Types} (L : Lib T) (hingeFlag : Bool) (hinget : T.Hingetree)
    (g : T.Graph) (fuel : Nat) (s : DetKDecomp T) :
    widthsSet (approxSearch L hingeFlag hinget g fuel s).trace
      = widthsSet (approxLoop L hingeFlag hinget g fuel (s.setState (L.FindDecomp s).2)
          (L.FindDecomp s).1 (L.CheckWidth (L.FindDecomp s).1)).trace := by
  simp only [approxSearch, LoopOut.after, widthsSet, List.singleton_append]
  exact List.filterMap_cons_none rfl

/-- The small library never yields a correct result for the graph 3 at a bound below 1. -/
theorem toyLib_rejects_below_one (s : DetKDecomp toyTypes) (hs : s.K < 1) :
    toyLib.Correct (search toyLib false () (3 : Nat) s).1 (3 : Nat) = false := by
  by_cases h1 : ((s.Graph : Nat) : Int) ≤ s.K
  · have hz : ((s.Graph : Nat) : Int) = 0 := by omega
    have h0 : (s.Graph : Nat) = 0 := Int.natCast_eq_zero.mp hz
    simp [search, toyLib, toyFind, h0]
  · simp [search, toyLib, toyFind, h1]

/-- In the small library a correct result found at bound K has width at most K. -/
theorem toyLib_width_bounded (s : DetKDecomp toyTypes)
    (hs : toyLib.Correct (search toyLib false () (3 : Nat) s).1 (3 : Nat) = true) :
    toyLib.CheckWidth (search toyLib false () (3 : Nat) s).1 ≤ s.K := by
  by_cases h1 : ((s.Graph : Nat) : Int) ≤ s.K
  · simp [search, toyLib, toyFind, h1]
  · simp [search, toyLib, toyFind, h1] at hs

/-- C10, as stated, fails: when the first decomposition has `CheckWidth` 0 the
assumptions hold, yet the descent makes one iteration (a search at width -1), which is
more than `k0 = 0`. -/
theorem approx_descent_bound_off_by_one :
    (∀ s : DetKDecomp toyTypes, s.K < 1 →
      toyLib.Correct (search toyLib false () (3 : Nat) s).1 (3 : Nat) = false) ∧
    (∀ s : DetKDecomp toyTypes,
      toyLib.Correct (search toyLib false () (3 : Nat) s).1 (3 : Nat) = true →
      toyLib.CheckWidth (search toyLib false () (3 : Nat) s).1 ≤ s.K) ∧
    toyLib.CheckWidth (toyLib.FindDecomp (newDet toyLib approxFlags 0 (3 : Nat))).1 = 0 ∧
    (approxSearch toyLib false () (3 : Nat) 0 (newDet toyLib approxFlags 0 (3 : Nat))).finished
      = false ∧
    (approxSearch toyLib false () (3 : Nat) 1 (newDet toyLib approxFlags 0 (3 : Nat))).finished
      = true ∧
    widthsSet (approxSearch toyLib false () (3 : Nat) 1
      (newDet toyLib approxFlags 0 (3 : Nat))).trace = [-1] :=
  ⟨toyLib_rejects_below_one, toyLib_width_bounded, rfl, rfl, rfl, rfl⟩

/-- C10, amended. Suppose no search result passes `Correct` at a bound below 1 and every
result that passes `Correct` at bound K has `CheckWidth <= K`.  Then the descent of
approximate mode ends after some `n` iterations with `1 <= n <= max k0 1`, where `k0`
is the `CheckWidth` of the first decomposition: for every run in which the timer does
not cut the goroutine short (it delivers first and at least `n` iterations are
observed, or the timer fires after more than `n` steps) the loop has finished after
exactly `n` calls of `SetWidth`, whose arguments strictly decrease and lie below `k0`,
and the final `k` is at most `k0`.  Without the second assumption the loop need not
end: `loopLib` satisfies the first one and its descent from `k = 5` never finishes. -/
theorem approx_descent_terminates {T : Types} (L : Lib T) (f : Flags) (width : Int)
    (p : Prep T) (s : DetKDecomp T) (hexact : f.exactFlag = false) (happrox : 0 < f.approx)
    (H1 : ∀ s2 : DetKDecomp T, s2.K < 1 →
      L.Correct (search L f.hingeFlag p.hinget p.parsedGraph s2).1 p.parsedGraph = false)
    (H2 : ∀ s2 : DetKDecomp T,
      L.Correct (search L f.hingeFlag p.hinget p.parsedGraph s2).1 p.parsedGraph = true →
      L.CheckWidth (search L f.hingeFlag p.hinget p.parsedGraph s2).1 ≤ s2.K) :
    (∃ n : Nat, 1 ≤ n ∧ (n : Int) ≤ max (L.CheckWidth (L.FindDecomp s).1) 1 ∧
      ∀ w : World, ((w.timer = none ∧ n ≤ w.fuel) ∨ ∃ t, w.timer = some t ∧ n < t) →
        (runMode L w f width p s).finished = true ∧
        (widthsSet (runMode L w f width p s).trace).length = n ∧
        (widthsSet (runMode L w f width p s).trace).Pairwise (· > ·) ∧
        (∀ x ∈ widthsSet (runMode L w f width p s).trace, x < L.CheckWidth (L.FindDecomp s).1) ∧
        (runMode L w f width p s).k ≤ L.CheckWidth (L.FindDecomp s).1) ∧
    ((∀ (h : Bool) (s2 : DetKDecomp toyTypes), s2.K < 1 →
        loopLib.Correct (search loopLib h () (5 : Nat) s2).1 (5 : Nat) = false) ∧
      ∀ (h : Bool) (fuel : Nat),
        (approxSearch loopLib h () (5 : Nat) fuel (newDet loopLib approxFlags 1 (5 : Nat))).finished
          = false) := by
  constructor
  · obtain ⟨n, hn1, hn2, hfin, hlen, hpw, hlt, hle⟩ :=
      approxLoop_terminates L f.hingeFlag p.hinget p.parsedGraph H1 H2
        (L.CheckWidth (L.FindDecomp s).1).toNat (s.setState (L.FindDecomp s).2)
        (L.FindDecomp s).1 (L.CheckWidth (L.FindDecomp s).1) (Int.self_le_toNat _)
    refine ⟨n, hn1, hn2, ?_⟩
    have key : ∀ m : Nat, n ≤ m →
        (approxSearch L f.hingeFlag p.hinget p.parsedGraph m s).finished = true ∧
        (widthsSet (approxSearch L f.hingeFlag p.hinget p.parsedGraph m s).trace).length = n ∧
        (widthsSet (approxSearch L f.hingeFlag p.hinget p.parsedGraph m s).trace).Pairwise (· > ·) ∧
        (∀ x ∈ widthsSet (approxSearch L f.hingeFlag p.hinget p.parsedGraph m s).trace,
          x < L.CheckWidth (L.FindDecomp s).1) ∧
        (approxSearch L f.hingeFlag p.hinget p.parsedGraph m s).k
          ≤ L.CheckWidth (L.FindDecomp s).1 := by
      intro m hm
      have hmono := approxLoop_mono L f.hingeFlag p.hinget p.parsedGraph n _ _ _ hfin m hm
      rw [widthsSet_approxSearch, hmono]
      refine ⟨?_, hlen, hpw, hlt, ?_⟩
      · simp only [approxSearch, LoopOut.after]
        rw [hmono]; exact hfin
      · simp only [approxSearch, LoopOut.after]
        rw [hmono]; exact hle
    intro w hw
    rcases hw with ⟨hnone, hfuel⟩ | ⟨t, ht, hnt⟩
    · rw [runMode_approx L w f width p s hexact happrox hnone]
      exact key w.fuel hfuel
    · obtain ⟨t, rfl⟩ : ∃ t2, t = t2 + 1 := ⟨t - 1, by omega⟩
      rw [runMode_late_timer L w f width p s hexact happrox t ht (key t (by omega)).1]
      exact key t (by omega)
  · refine ⟨fun h s2 hs => loopLib_rejects_below_one h s2 hs, ?_⟩
    intro h fuel
    simp only [approxSearch, LoopOut.after]
    exact loopLib_descent_runs h fuel _ _

/-- C10 amended, at a run: on the graph of width 3 with `-width 7` the descent ends
after one iteration, within the bound `max 3 1`. -/
theorem approx_descent_terminates_witness :
    ∃ n : Nat, 1 ≤ n ∧ (n : Int) ≤ 3 ∧
      (runMode toyLib toyWorld approxFlags 7 (preprocess toyLib approxFlags 7 (3 : Nat))
        (newDet toyLib approxFlags 7 (3 : Nat))).finished = true :=
  have h := (approx_descent_terminates toyLib approxFlags 7
    (preprocess toyLib approxFlags 7 (3 : Nat)) (newDet toyLib approxFlags 7 (3 : Nat))
    rfl (by decide) toyLib_rejects_below_one toyLib_width_bounded).1
  h.elim fun n hn => ⟨n, hn.1, hn.2.1, (hn.2.2 toyWorld (Or.inl ⟨rfl, by
    have h3 : (n : Int) ≤ 3 := hn.2.1
    have h8 : toyWorld.fuel = 8 := rfl
    omega⟩)).1⟩

/-! ## The run of `main` -/

theorem all_ite {α : Type} (c : Prop) [Decidable c] (q : α → Bool) (l1 l2 : List α)
    (h1 : l1.all q = true) (h2 : l2.all q = true) : (if c then l1 else l2).all q = true := by
  split <;> assumption

theorem noSearch_positive {T : Types} (tr : List (Event T)) (h : noSearch tr = true) :
    allSearchesPositive tr = true := by
  unfold noSearch at h
  unfold allSearchesPositive
  rw [List.all_eq_true] at h ⊢
  intro e he
  have := h e he
  cases hb : e.searchBound with
  | none => rfl
  | some K => rw [hb] at this; simp at this

theorem allSearchesPositive_append {T : Types} (a b : List (Event T)) :
    allSearchesPositive (a ++ b) = (allSearchesPositive a && allSearchesPositive b) := by
  unfold allSearchesPositive
  rw [List.all_append]

theorem noSearch_append {T : Types} (a b : List (Event T)) :
    noSearch (a ++ b) = (noSearch a && noSearch b) := by
  unfold noSearch
  rw [List.all_append]

theorem prologue_noSearch {T : Types} (f : Flags) : noSearch (prologue f : List (Event T)) = true := by
  unfold prologue
  rw [noSearch_append, Bool.and_eq_true]
  exact ⟨all_ite _ _ _ _ rfl rfl, all_ite _ _ _ _ rfl rfl⟩

/-- Every event of the preprocessing block is a reordering, a reduction or a print. -/
theorem preprocess_trace {T : Types} (L : Lib T) (f : Flags) (width : Int) (g : T.Graph) :
    (preprocess L f width g).trace.all
      (fun e => e.isPreprocessing || match e with | .print _ => true | _ => false) = true := by
  simp only [preprocess, List.all_append, Bool.and_eq_true]
  refine ⟨⟨⟨⟨?_, ?_⟩, ?_⟩, ?_⟩, ?_⟩
  · exact all_ite _ _ _ _ (by cases f.bench <;> rfl) rfl
  · cases f.typeC <;> cases f.bench <;> rfl
  · cases f.gyo <;> cases f.bench <;> rfl
  · cases f.globalBal <;> cases f.computeSubedges <;> rfl
  · cases f.hingeFlag <;> cases f.bench <;> rfl

theorem preprocess_noSearch {T : Types} (L : Lib T) (f : Flags) (width : Int) (g : T.Graph) :
    noSearch (preprocess L f width g).trace = true := by
  have h := preprocess_trace L f width g
  unfold noSearch
  rw [List.all_eq_true] at h ⊢
  intro e he
  have := h e he
  cases e <;> simp_all [Event.isPreprocessing, Event.searchBound]

theorem allSearchesPositive_step {T : Types} (L : Lib T) (hingeFlag : Bool) (hinget : T.Hingetree)
    (g : T.Graph) (s : DetKDecomp T) (k : Int) (tr : List (Event T)) :
    allSearchesPositive (searchAtTrace L hingeFlag hinget g s k ++ tr)
      = (decide (1 ≤ k) && allSearchesPositive tr) := by
  unfold allSearchesPositive searchAtTrace
  rw [List.cons_append, List.cons_append, List.nil_append, List.all_cons, List.all_cons,
    searchEvent_bound, SetWidth_K]
  rfl

theorem exactLoop_positive {T : Types} (L : Lib T) (hingeFlag : Bool) (hinget : T.Hingetree)
    (g : T.Graph) :
    ∀ (fuel : Nat) (solver : DetKDecomp T) (d0 : Decomp T) (k : Int), 1 ≤ k →
      allSearchesPositive (exactLoop L hingeFlag hinget g fuel solver d0 k).trace = true := by
  intro fuel
  induction fuel with
  | zero => intro solver d0 k _; rfl
  | succ n ih =>
    intro solver d0 k hk
    cases hc : L.Correct (searchAt L hingeFlag hinget g solver k).1 g
    · rw [exactLoop_incorrect L hingeFlag hinget g n solver d0 k hc]
      simp only [LoopOut.after]
      rw [allSearchesPositive_step, ih _ _ _ (by omega)]
      simp [hk]
    · rw [exactLoop_correct L hingeFlag hinget g n solver d0 k hc]
      have htr : searchAtTrace L hingeFlag hinget g solver k
          = searchAtTrace L hingeFlag hinget g solver k ++ [] := by simp
      simp only
      rw [htr, allSearchesPositive_step]
      simp [hk, allSearchesPositive]

theorem Result.after_trace {T : Types} (evs : List (Event T)) (r : Result T) :
    (r.after evs).trace = evs ++ r.trace := rfl

theorem Result.after_outcome {T : Types} (evs : List (Event T)) (r : Result T) :
    (r.after evs).outcome = r.outcome := rfl

theorem restore_noSearch {T : Types} (L : Lib T) (d : Decomp T) (ops : List T.GYOReduct)
    (m : T.RemovalMap) : noSearch (restore L d ops m).1 = true := by
  unfold restore
  dsimp only
  split
  · rfl
  · split <;> rfl

theorem restoreIf_noSearch {T : Types} (L : Lib T) (c : Bool) (d : Decomp T)
    (ops : List T.GYOReduct) (m : T.RemovalMap) : noSearch (restoreIf L c d ops m).1 = true := by
  unfold restoreIf
  split
  · exact restore_noSearch L d ops m
  · rfl

theorem writeCache_noSearch {T : Types} (L : Lib T) (w : World) (gml : String)
    (s : DetKDecomp T) : noSearch (writeCache L w gml s).trace = true := by
  unfold writeCache
  split
  · rfl
  · split <;> rfl

theorem exportCacheBlock_noSearch {T : Types} (L : Lib T) (w : World) (f : Flags)
    (s : DetKDecomp T) : noSearch (exportCacheBlock L w f s).trace = true := by
  unfold exportCacheBlock
  split
  · split
    · rfl
    · exact writeCache_noSearch L w f.gml s
  · rfl

theorem finishFresh_noSearch {T : Types} (L : Lib T) (w : World) (f : Flags) (g0 : T.Graph)
    (m : LoopOut T) (d : Decomp T) : noSearch (finishFresh L w f g0 m d).trace = true := by
  unfold finishFresh
  dsimp only
  split
  · rfl
  · rw [Result.after_trace, noSearch_append, exportCacheBlock_noSearch]
    rfl

theorem finishUpdate_noSearch {T : Types} (L : Lib T) (w : World) (f : Flags) (width : Int)
    (p : Prep T) (s : DetKDecomp T) (d : Decomp T) :
    noSearch (finishUpdate L w f width p s d).trace = true := by
  unfold finishUpdate
  dsimp only
  split
  · rfl
  · split
    · rw [Result.after_trace, noSearch_append, writeCache_noSearch]
      rfl
    · rfl

theorem shortcutOutput_noSearch {T : Types} (L : Lib T) (w : World) (f : Flags) (width : Int)
    (g : T.Graph) (su : Option (DetKDecomp T)) (d : Decomp T) :
    noSearch (shortcutOutput L w f width g su d).trace = true := by
  unfold shortcutOutput
  split <;> rfl

theorem restoreThen_positive {T : Types} (L : Lib T) (c : Bool) (d : Decomp T)
    (ops : List T.GYOReduct) (m : T.RemovalMap) (pre : List (Event T))
    (fin : Decomp T → Result T) (hpre : allSearchesPositive pre = true)
    (hfin : ∀ d1, allSearchesPositive (fin d1).trace = true) :
    allSearchesPositive (restoreThen L c d ops m pre fin).trace = true := by
  unfold restoreThen
  split
  · rw [allSearchesPositive_append, hpre, noSearch_positive _ (restoreIf_noSearch _ _ _ _ _)]
    rfl
  · rw [Result.after_trace, allSearchesPositive_append, allSearchesPositive_append, hpre,
      noSearch_positive _ (restoreIf_noSearch _ _ _ _ _), hfin]
    rfl

/-- The search calls of the fresh path: positive in exact mode, and positive outside
approximate mode when the width is. -/
theorem freshPath_positive {T : Types} (L : Lib T) (w : World) (f : Flags) (width : Int)
    (g0 : T.Graph) (p : Prep T)
    (h : f.exactFlag = true ∨ (f.approx ≤ 0 ∧ 1 ≤ width)) :
    allSearchesPositive (freshPath L w f width g0 p).trace = true := by
  have hmode : allSearchesPositive
      (runMode L w f width p (newDet L f width p.parsedGraph)).trace = true := by
    cases hex : f.exactFlag
    · rcases h with h | ⟨ha, hw⟩
      · rw [hex] at h; exact absurd h Bool.false_ne_true
      · rw [runMode_plain L w f width p _ hex ha]
        simp [allSearchesPositive, searchEvent_bound, newDet, hw]
    · rw [runMode_exact L w f width p _ hex]
      exact exactLoop_positive L f.hingeFlag p.hinget p.parsedGraph w.fuel _ _ 1 (le_refl _)
  unfold freshPath
  cases hdet : f.detKTest
  · rfl
  · simp only [if_true, Nat.lt_irrefl, if_false]
    unfold solveFresh
    dsimp only
    split
    · exact hmode
    · exact restoreThen_positive _ _ _ _ _ _ _ hmode
        (fun d => noSearch_positive _ (finishFresh_noSearch _ _ _ _ _ _))

/-- The search calls of the update path run at the bound of the two solvers. -/
theorem updatePath_positive {T : Types} (L : Lib T) (w : World) (f : Flags) (width : Int)
    (p : Prep T) (su se : Option (DetKDecomp T)) (pd : Decomp T) (pc : T.Cache)
    (hsu : ∀ s, su = some s → 1 ≤ s.K) (hse : ∀ s, se = some s → 1 ≤ s.K) :
    allSearchesPositive (updatePath L w f width p su se pd pc).trace = true := by
  unfold updatePath
  dsimp only
  split
  · rfl
  · rename_i s
    have hs := hsu s rfl
    have hsearch : ∀ x, updateSearch L w f s se p.parsedGraph
        (L.SceneCreation pd p.parsedGraph) pc = some x → allSearchesPositive x.1 = true := by
      intro x hx
      unfold updateSearch at hx
      dsimp only at hx
      split at hx
      · split at hx
        · exact absurd hx (by simp)
        · rename_i e
          have he := hse e rfl
          split at hx
          · have := Option.some.inj hx
            subst this
            simp [allSearchesPositive, Event.searchBound, hs, he]
          · have := Option.some.inj hx
            subst this
            simp [allSearchesPositive, Event.searchBound, hs, he]
      · have := Option.some.inj hx
        subst this
        simp [allSearchesPositive, Event.searchBound, hs]
    split
    · rfl
    · rename_i trS decomp su1 heq
      have htrS := hsearch _ heq
      simp only at htrS
      apply restoreThen_positive
      · rw [allSearchesPositive_append, htrS]
        rfl
      · exact fun d => noSearch_positive _ (finishUpdate_noSearch _ _ _ _ _ _ _)

/-- The shortcut block ends the run only under `-decomp`: on an unreadable file, or with
the shortcut output when the parsed decomposition is correct. -/
theorem shortcut_done_inv {T : Types} (L : Lib T) (w : World) (f : Flags) (width : Int)
    (g g0 : T.Graph) (pg : T.ParseGraph) (r : Result T)
    (h : shortcut L w f width g g0 pg = .done r) :
    (f.decomp != "") = true ∧
    (r = ⟨[], .ioPanic⟩ ∨
      ∃ dis, w.readFile f.decomp = some dis ∧
        L.Correct (L.GetDecomp dis g (L.Encoding pg)) g0 = true ∧
        r = shortcutOutput L w f width g
          (if f.detKTest then some (newDet L f width g) else none)
          (L.GetDecomp dis g (L.Encoding pg))) := by
  unfold shortcut at h
  split at h
  · rename_i hd
    refine ⟨hd, ?_⟩
    dsimp only at h
    split at h
    · left; exact (Shortcut.done.inj h).symm
    · rename_i dis hdis
      split at h
      · rename_i hc
        right
        exact ⟨dis, hdis, hc, (Shortcut.done.inj h).symm⟩
      · split at h
        · split at h
          · left; exact (Shortcut.done.inj h).symm
          · exact absurd h (by simp)
        · exact absurd h (by simp)
  · exact absurd h (by simp)

/-- When the shortcut block lets the run continue, the solvers are the ones built from
`-det` and `-ensemble` at the current width, and under `-decomp` the parsed
decomposition failed the check. -/
theorem shortcut_go_inv {T : Types} (L : Lib T) (w : World) (f : Flags) (width : Int)
    (g g0 : T.Graph) (pg : T.ParseGraph) (su se : Option (DetKDecomp T)) (pd : Decomp T)
    (pc : T.Cache) (h : shortcut L w f width g g0 pg = .go su se pd pc) :
    ((f.decomp != "") = false ∧ su = none ∧ se = none) ∨
    ((f.decomp != "") = true ∧
      su = (if f.detKTest then some (newDet L f width g) else none) ∧
      se = (if f.detKTest && f.ensemble then some (newDet L f width g) else none) ∧
      ∃ dis, w.readFile f.decomp = some dis ∧ pd = L.GetDecomp dis g (L.Encoding pg) ∧
        L.Correct pd g0 = false) := by
  unfold shortcut at h
  split at h
  · rename_i hd
    right
    dsimp only at h
    split at h
    · exact absurd h (by simp)
    · rename_i dis hdis
      split at h
      · exact absurd h (by simp)
      · rename_i hc
        have hc2 : L.Correct (L.GetDecomp dis g (L.Encoding pg)) g0 = false := by
          simpa using hc
        split at h
        · split at h
          · exact absurd h (by simp)
          · obtain ⟨h1, h2, h3, _⟩ := Shortcut.go.inj h
            exact ⟨hd, h1.symm, h2.symm, dis, hdis, h3.symm, h3 ▸ hc2⟩
        · obtain ⟨h1, h2, h3, _⟩ := Shortcut.go.inj h
          exact ⟨hd, h1.symm, h2.symm, dis, hdis, h3.symm, h3 ▸ hc2⟩
  · rename_i hd
    left
    obtain ⟨h1, h2, _, _⟩ := Shortcut.go.inj h
    exact ⟨by simpa using hd, h1.symm, h2.symm⟩

theorem afterParse_positive {T : Types} (L : Lib T) (w : World) (f : Flags) (width : Int)
    (g : T.Graph) (pg : T.ParseGraph)
    (h : (f.exactFlag = true ∧ (f.decomp != "") = false) ∨ (f.approx ≤ 0 ∧ 1 ≤ width)) :
    allSearchesPositive (afterParse L w f width g pg).trace = true := by
  unfold afterParse
  split
  · rename_i r hr
    obtain ⟨_, hr2⟩ := shortcut_done_inv L w f width g g pg r hr
    rcases hr2 with rfl | ⟨dis, _, _, rfl⟩
    · rfl
    · exact noSearch_positive _ (shortcutOutput_noSearch _ _ _ _ _ _ _)
  · rename_i su se pd pc hgo
    have hinv := shortcut_go_inv L w f width g g pg su se pd pc hgo
    split
    · rename_i hd
      rw [Result.after_trace, allSearchesPositive_append,
        noSearch_positive _ (preprocess_noSearch L f width g), Bool.true_and]
      rcases hinv with ⟨hd2, _, _⟩ | ⟨_, hsu, hse, _⟩
      · rw [hd] at hd2; exact absurd hd2 (by simp)
      · rcases h with ⟨_, hd2⟩ | ⟨_, hw⟩
        · rw [hd] at hd2; exact absurd hd2 (by simp)
        · apply updatePath_positive
          · intro s hs
            rw [hsu] at hs
            split at hs
            · rw [← Option.some.inj hs]; exact hw
            · exact absurd hs (by simp)
          · intro s hs
            rw [hse] at hs
            split at hs
            · rw [← Option.some.inj hs]; exact hw
            · exact absurd hs (by simp)
    · rename_i hd
      rw [Result.after_trace, allSearchesPositive_append,
        noSearch_positive _ (preprocess_noSearch L f width g), Bool.true_and]
      apply freshPath_positive
      rcases h with ⟨hex, _⟩ | h
      · exact Or.inl hex
      · exact Or.inr h

/-- C1: an invalid width that is not rejected.  At the failing input
`-graph g3 -det -approx -1` (`-width` left at 0) the usage check lets the run through,
because it skips the width test for every `-approx` other than 0, while approximate
mode is entered only for `-approx > 0`: no usage message is printed, the solver is
built with the width bound 0 and the plain `FindDecomp` runs at that bound. -/
theorem negative_approx_passes_usage_check :
    usageCheck negApproxFlags = false ∧ negApproxFlags.width = 0 ∧
    (main toyLib toyWorld negApproxFlags).trace
      = [.findDecomp 0 ⟨(0 : Nat), (0 : Nat)⟩,
          .outputStanza (outputStanza toyLib toyWorld "DetKDecomp" ⟨(0 : Nat), (0 : Nat)⟩
            (3 : Nat) "" "" 0 false)] ∧
    allSearchesPositive (main toyLib toyWorld negApproxFlags).trace = false ∧
    (main toyLib toyWorld negApproxFlags).outcome = .returned :=
  ⟨by decide, rfl, rfl, by decide, by decide⟩

theorem main_positive {T : Types} (L : Lib T) (w : World) (f : Flags)
    (h : (f.exactFlag = true ∧ (f.decomp != "") = false) ∨
      (f.approx ≤ 0 ∧ ∀ dat, w.readFile f.graphPath = some dat → 1 ≤ (parseInput L f dat).2.2)) :
    allSearchesPositive (main L w f).trace = true := by
  unfold main
  split
  · exact all_ite _ _ _ _ rfl rfl
  · split
    · exact noSearch_positive _ (by rw [noSearch_append, prologue_noSearch]; rfl)
    · split
      · exact noSearch_positive _ (prologue_noSearch f)
      · rename_i dat hdat
        rw [Result.after_trace, allSearchesPositive_append,
          noSearch_positive _ (prologue_noSearch f), Bool.true_and]
        apply afterParse_positive
        rcases h with h | ⟨ha, hw⟩
        · exact Or.inl h
        · exact Or.inr ⟨ha, hw dat hdat⟩

/-- What the usage check of `main` does ensure.  It tests the width only when none of
`-exact`, `-nice`, `-approx` is given.  A configuration that it rejects makes no search
call: it prints the usage message and returns, unless the CPU profile file cannot be
created, which ends the run earlier.  Every search call has a width bound of at least
1 (i) in exact mode on the fresh path, (ii) whenever `-approx <= 0` and the width in
effect, the flag or under `-nice` the width read from the graph file, is at least 1,
and in particular (iii) for every configuration that passes the usage check with none
of `-exact`, `-nice`, `-approx` given. -/
theorem width_rejection {T : Types} (L : Lib T) (w : World) (f : Flags) :
    (usageCheck f = true →
      noSearch (main L w f).trace = true ∧
      ((main L w f).outcome = .fatal ∨
        ((main L w f).outcome = .returned ∧ Event.usage ∈ (main L w f).trace))) ∧
    (f.exactFlag = true → f.decomp = "" → allSearchesPositive (main L w f).trace = true) ∧
    (f.approx ≤ 0 →
      (∀ dat, w.readFile f.graphPath = some dat → 1 ≤ (parseInput L f dat).2.2) →
      allSearchesPositive (main L w f).trace = true) ∧
    (usageCheck f = false → f.exactFlag = false → f.nice = false → f.approx = 0 →
      1 ≤ f.width ∧ allSearchesPositive (main L w f).trace = true) := by
  refine ⟨?_, ?_, ?_, ?_⟩
  · intro hg
    unfold main
    split
    · exact ⟨all_ite _ _ _ _ rfl rfl, Or.inl rfl⟩
    · refine ⟨by rw [noSearch_append, prologue_noSearch]; rfl, Or.inr ⟨rfl, ?_⟩⟩
      exact List.mem_append_right _ (List.mem_singleton.2 rfl)
  · intro hex hd
    exact main_positive L w f (Or.inl ⟨hex, by simp [hd]⟩)
  · intro ha hw
    exact main_positive L w f (Or.inr ⟨ha, hw⟩)
  · intro hg hex hn ha
    have hw : 1 ≤ f.width := by
      unfold usageCheck at hg
      simp only [hex, hn, ha, Bool.not_false, Bool.and_true, beq_self_eq_true, Bool.or_eq_false_iff,
        decide_eq_false_iff_not, not_le] at hg
      omega
    refine ⟨hw, main_positive L w f (Or.inr ⟨by omega, ?_⟩)⟩
    intro dat _
    unfold parseInput
    split
    · exact hw
    · rw [if_neg (by simp [hn])]
      exact hw

/-- The usage check at four runs: the default flags are rejected without a search;
exact mode, `-det -width 3` and the same seen as a run with approximate mode off search
at bounds of at least 1. -/
theorem width_rejection_witness :
    noSearch (main toyLib toyWorld baseFlags).trace = true ∧
    allSearchesPositive (main toyLib toyWorld exactFlags).trace = true ∧
    allSearchesPositive (main toyLib toyWorld plainFlags).trace = true ∧
    1 ≤ plainFlags.width :=
  ⟨((width_rejection toyLib toyWorld baseFlags).1 (by decide)).1,
    (width_rejection toyLib toyWorld exactFlags).2.1 rfl rfl,
    (width_rejection toyLib toyWorld plainFlags).2.2.1 (by decide)
      (fun dat _ => show (1 : Int) ≤ (parseInput toyLib plainFlags dat).2.2 from by
        simp [parseInput, plainFlags, baseFlags]),
    ((width_rejection toyLib toyWorld plainFlags).2.2.2 (by decide) rfl rfl rfl).1⟩

/-! ### Which events each block of `main` emits -/

theorem prologue_kind {T : Types} (f : Flags) :
    ∀ e ∈ (prologue f : List (Event T)), e.kind = .info := by
  intro e he
  unfold prologue at he
  rcases List.mem_append.1 he with h | h
  · split at h
    · rw [List.mem_singleton.1 h]; rfl
    · exact absurd h (List.not_mem_nil _)
  · split at h
    · rw [List.mem_singleton.1 h]; rfl
    · exact absurd h (List.not_mem_nil _)

theorem preprocess_kind {T : Types} (L : Lib T) (f : Flags) (width : Int) (g : T.Graph) :
    ∀ e ∈ (preprocess L f width g).trace, e.kind = .info ∨ e.kind = .prep := by
  intro e he
  have h := List.all_eq_true.1 (preprocess_trace L f width g) e he
  cases e <;> simp_all [Event.isPreprocessing, Event.kind]

theorem searchAtTrace_kind {T : Types} (L : Lib T) (hingeFlag : Bool) (hinget : T.Hingetree)
    (g : T.Graph) (s : DetKDecomp T) (k : Int) :
    ∀ e ∈ searchAtTrace L hingeFlag hinget g s k, e.kind = .step := by
  intro e he
  unfold searchAtTrace at he
  rcases List.mem_cons.1 he with rfl | he
  · rfl
  · rw [List.mem_singleton.1 he]
    unfold searchEvent
    split <;> rfl

theorem exactLoop_kind {T : Types} (L : Lib T) (hingeFlag : Bool) (hinget : T.Hingetree)
    (g : T.Graph) :
    ∀ (fuel : Nat) (solver : DetKDecomp T) (d0 : Decomp T) (k : Int),
      ∀ e ∈ (exactLoop L hingeFlag hinget g fuel solver d0 k).trace, e.kind = .step := by
  intro fuel
  induction fuel with
  | zero => intro solver d0 k e he; exact absurd he (List.not_mem_nil _)
  | succ n ih =>
    intro solver d0 k e he
    cases hc : L.Correct (searchAt L hingeFlag hinget g solver k).1 g
    · rw [exactLoop_incorrect L hingeFlag hinget g n solver d0 k hc] at he
      rcases List.mem_append.1 he with h | h
      · exact searchAtTrace_kind L hingeFlag hinget g solver k e h
      · exact ih _ _ _ e h
    · rw [exactLoop_correct L hingeFlag hinget g n solver d0 k hc] at he
      exact searchAtTrace_kind L hingeFlag hinget g solver k e he

theorem approxLoop_kind {T : Types} (L : Lib T) (hingeFlag : Bool) (hinget : T.Hingetree)
    (g : T.Graph) :
    ∀ (fuel : Nat) (solver : DetKDecomp T) (d : Decomp T) (k : Int),
      ∀ e ∈ (approxLoop L hingeFlag hinget g fuel solver d k).trace, e.kind = .step := by
  intro fuel
  induction fuel with
  | zero => intro solver d k e he; exact absurd he (List.not_mem_nil _)
  | succ n ih =>
    intro solver d k e he
    cases hc : L.Correct (searchAt L hingeFlag hinget g solver (k - 1)).1 g
    · rw [approxLoop_reject L hingeFlag hinget g n solver d k hc] at he
      exact searchAtTrace_kind L hingeFlag hinget g solver (k - 1) e he
    · rw [approxLoop_accept L hingeFlag hinget g n solver d k hc] at he
      rcases List.mem_append.1 he with h | h
      · exact searchAtTrace_kind L hingeFlag hinget g solver (k - 1) e h
      · exact ih _ _ _ e h

theorem approxSearch_kind {T : Types} (L : Lib T) (hingeFlag : Bool) (hinget : T.Hingetree)
    (g : T.Graph) (fuel : Nat) (s : DetKDecomp T) :
    ∀ e ∈ (approxSearch L hingeFlag hinget g fuel s).trace, e.kind = .step := by
  intro e he
  unfold approxSearch at he
  rcases List.mem_append.1 he with h | h
  · rw [List.mem_singleton.1 h]; rfl
  · exact approxLoop_kind L _ _ _ _ _ _ _ e h

theorem approxProgress_kind {T : Types} (L : Lib T) (hingeFlag : Bool) (hinget : T.Hingetree)
    (g : T.Graph) (t : Nat) (s : DetKDecomp T) :
    ∀ e ∈ (approxProgress L hingeFlag hinget g t s).trace, e.kind = .step := by
  cases t with
  | zero => intro e he; exact absurd he (List.not_mem_nil _)
  | succ t => exact approxSearch_kind L hingeFlag hinget g t s

theorem approxSelect_kind {T : Types} (L : Lib T) (w : World) (hingeFlag : Bool)
    (hinget : T.Hingetree) (g : T.Graph) (s : DetKDecomp T) :
    ∀ e ∈ (approxSelect L w hingeFlag hinget g s).trace, e.kind = .step := by
  intro e he
  unfold approxSelect at he
  split at he
  · exact approxSearch_kind L hingeFlag hinget g _ s e he
  · split at he
    · exact approxProgress_kind L hingeFlag hinget g _ s e he
    · exact approxProgress_kind L hingeFlag hinget g _ s e he

theorem runMode_kind {T : Types} (L : Lib T) (w : World) (f : Flags) (width : Int) (p : Prep T)
    (s : DetKDecomp T) : ∀ e ∈ (runMode L w f width p s).trace, e.kind = .step := by
  intro e he
  unfold runMode at he
  split at he
  · exact exactLoop_kind L _ _ _ _ _ _ _ e he
  · split at he
    · exact approxSelect_kind L w _ _ _ s e he
    · rw [List.mem_singleton.1 he]
      unfold searchEvent
      split <;> rfl

theorem updateSearch_kind {T : Types} (L : Lib T) (w : World) (f : Flags) (su : DetKDecomp T)
    (se : Option (DetKDecomp T)) (g : T.Graph) (sc : T.HashMap) (pc : T.Cache)
    (x : List (Event T) × Decomp T × DetKDecomp T)
    (h : updateSearch L w f su se g sc pc = some x) : ∀ e ∈ x.1, e.kind = .step := by
  unfold updateSearch at h
  dsimp only at h
  split at h
  · split at h
    · exact absurd h (by simp)
    · split at h <;>
      · have := Option.some.inj h
        subst this
        intro e he
        rcases List.mem_cons.1 he with rfl | he
        · rfl
        · rw [List.mem_singleton.1 he]; rfl
  · have := Option.some.inj h
    subst this
    intro e he
    rw [List.mem_singleton.1 he]; rfl

/-- The restore block either panics, after a call that returned `false`, or yields the
decomposition with root `RestoreTypes(RestoreGYO(root, ops), removalMap)` after two calls
that returned `true`, or was skipped. -/
theorem restoreIf_inv {T : Types} (L : Lib T) (c : Bool) (d : Decomp T)
    (ops : List T.GYOReduct) (m : T.RemovalMap) :
    (c = false ∧ restoreIf L c d ops m = ([], some d)) ∨
    (c = true ∧ (L.RestoreGYO d.Root ops).2 = false ∧
      restoreIf L c d ops m = ([.restoreGYO d.Root ops false, .print "Partial decomp:",
        .logPanic "GYO reduction failed"], none)) ∨
    (c = true ∧ (L.RestoreGYO d.Root ops).2 = true ∧
      (L.RestoreTypes (L.RestoreGYO d.Root ops).1 m).2 = false ∧
      restoreIf L c d ops m = ([.restoreGYO d.Root ops true,
        .restoreTypes (L.RestoreGYO d.Root ops).1 m false, .print "Partial decomp:",
        .logPanic "Type Collapse reduction failed"], none)) ∨
    (c = true ∧ (L.RestoreGYO d.Root ops).2 = true ∧
      (L.RestoreTypes (L.RestoreGYO d.Root ops).1 m).2 = true ∧
      restoreIf L c d ops m = ([.restoreGYO d.Root ops true,
        .restoreTypes (L.RestoreGYO d.Root ops).1 m true],
        some ⟨d.Graph, (L.RestoreTypes (L.RestoreGYO d.Root ops).1 m).1⟩)) := by
  cases c
  · left; exact ⟨rfl, rfl⟩
  · right
    cases h1 : (L.RestoreGYO d.Root ops).2
    · left
      refine ⟨rfl, rfl, ?_⟩
      simp [restoreIf, restore, h1]
    · right
      cases h2 : (L.RestoreTypes (L.RestoreGYO d.Root ops).1 m).2
      · left
        refine ⟨rfl, rfl, rfl, ?_⟩
        simp [restoreIf, restore, h1, h2]
      · right
        refine ⟨rfl, rfl, rfl, ?_⟩
        simp [restoreIf, restore, h1, h2]

theorem restoreFailure_kind {T : Types} (e : Event T) (h : e.isRestoreFailure = true) :
    e.kind = .restore := by
  cases e <;> simp_all [Event.isRestoreFailure, Event.kind]

theorem restoreThen_after {T : Types} (L : Lib T) (c : Bool) (d : Decomp T)
    (ops : List T.GYOReduct) (m : T.RemovalMap) (pre evs : List (Event T))
    (fin : Decomp T → Result T) :
    (restoreThen L c d ops m pre fin).after evs = restoreThen L c d ops m (evs ++ pre) fin := by
  unfold restoreThen
  split <;> simp [Result.after, List.append_assoc]

/-- A path that ends in the restore block followed by `outputStanza`: a restore call that
returned `false` ends the run in a panic with no `outputStanza` call and no cache file
in the trace; two restore calls that returned `true` were made on the root of the
decomposition given, in the order GYO then types, and `outputStanza` received the
result, unless `late` has replaced it. -/
theorem restoreThen_spec {T : Types} (L : Lib T) (c : Bool) (d : Decomp T)
    (ops : List T.GYOReduct) (m : T.RemovalMap) (pre : List (Event T))
    (fin : Decomp T → Result T) (late : Option (Decomp T))
    (hpre : ∀ e ∈ pre, e.kind ≠ .restore ∧ e.kind ≠ .stanza ∧ e.kind ≠ .cacheFile)
    (hfin : ∀ d1, ∃ st tl, (fin d1).trace = .outputStanza st :: tl ∧ st.skipCheck = false ∧
      st.decomp.Root = (late.getD d1).Root ∧ ∀ e ∈ tl, e.kind ≠ .restore) :
    (∀ e ∈ (restoreThen L c d ops m pre fin).trace, e.isRestoreFailure = true →
      (restoreThen L c d ops m pre fin).outcome = .restorePanic ∧
      ∀ e2 ∈ (restoreThen L c d ops m pre fin).trace, e2.kind ≠ .stanza ∧ e2.kind ≠ .cacheFile) ∧
    (∀ root o root1 rm, Event.restoreGYO root o true ∈ (restoreThen L c d ops m pre fin).trace →
      Event.restoreTypes root1 rm true ∈ (restoreThen L c d ops m pre fin).trace →
      root = d.Root ∧ o = ops ∧ rm = m ∧ root1 = (L.RestoreGYO root o).1 ∧
      ∃ st, Event.outputStanza st ∈ (restoreThen L c d ops m pre fin).trace ∧
        st.skipCheck = false ∧
        st.decomp.Root
          = (late.getD ⟨d.Graph, (L.RestoreTypes (L.RestoreGYO root o).1 rm).1⟩).Root) := by
  have hk : ∀ e : Event T, e ∈ pre → e.kind = .restore → False := fun e he hr => (hpre e he).1 hr
  rcases restoreIf_inv L c d ops m with ⟨_, hrs⟩ | ⟨_, _, hrs⟩ | ⟨_, _, _, hrs⟩ | ⟨_, _, _, hrs⟩
  · obtain ⟨st, tl, htr, _, _, htl⟩ := hfin d
    have hno : ∀ e ∈ (restoreThen L c d ops m pre fin).trace, e.kind = .restore → False := by
      intro e he hr
      simp only [restoreThen, hrs, Result.after_trace, htr, List.append_nil, List.mem_append,
        List.mem_cons] at he
      rcases he with he | rfl | he
      · exact hk e he hr
      · simp [Event.kind] at hr
      · exact htl e he hr
    refine ⟨fun e he hf => (hno e he (restoreFailure_kind e hf)).elim, ?_⟩
    intro root o root1 rm h1 _
    exact (hno _ h1 rfl).elim
  · constructor
    · intro e _ _
      simp only [restoreThen, hrs, true_and]
      intro e2 he2
      simp only [List.mem_append, List.mem_cons, List.mem_singleton, List.not_mem_nil,
        or_false] at he2
      rcases he2 with he2 | rfl | rfl | rfl
      · exact ⟨(hpre e2 he2).2.1, (hpre e2 he2).2.2⟩
      all_goals simp [Event.kind]
    · intro root o root1 rm h1 _
      simp only [restoreThen, hrs, List.mem_append, List.mem_cons, List.not_mem_nil,
        or_false] at h1
      rcases h1 with h1 | h1 | h1 | h1
      · exact (hk _ h1 rfl).elim
      all_goals simp at h1
  · constructor
    · intro e _ _
      simp only [restoreThen, hrs, true_and]
      intro e2 he2
      simp only [List.mem_append, List.mem_cons, List.mem_singleton, List.not_mem_nil,
        or_false] at he2
      rcases he2 with he2 | rfl | rfl | rfl | rfl
      · exact ⟨(hpre e2 he2).2.1, (hpre e2 he2).2.2⟩
      all_goals simp [Event.kind]
    · intro root o root1 rm _ h2
      simp only [restoreThen, hrs, List.mem_append, List.mem_cons, List.not_mem_nil,
        or_false] at h2
      rcases h2 with h2 | h2 | h2 | h2 | h2
      · exact (hk _ h2 rfl).elim
      all_goals simp at h2
  · obtain ⟨st, tl, htr, hskip, hroot, htl⟩ :=
      hfin ⟨d.Graph, (L.RestoreTypes (L.RestoreGYO d.Root ops).1 m).1⟩
    constructor
    · intro e he hf
      simp only [restoreThen, hrs, Result.after_trace, htr, List.mem_append, List.mem_cons,
        List.not_mem_nil, or_false] at he
      rcases he with (he | rfl | rfl) | rfl | he
      · exact (hk e he (restoreFailure_kind e hf)).elim
      · simp [Event.isRestoreFailure] at hf
      · simp [Event.isRestoreFailure] at hf
      · simp [Event.isRestoreFailure] at hf
      · exact (htl e he (restoreFailure_kind e hf)).elim
    · intro root o root1 rm h1 h2
      simp only [restoreThen, hrs, Result.after_trace, htr, List.mem_append, List.mem_cons,
        List.not_mem_nil, or_false] at h1 h2 ⊢
      have e1 : root = d.Root ∧ o = ops := by
        rcases h1 with (h1 | h1 | h1) | h1 | h1
        · exact (hk _ h1 rfl).elim
        · simp only [Event.restoreGYO.injEq, and_true] at h1; exact h1
        · simp at h1
        · simp at h1
        · exact (htl _ h1 rfl).elim
      have e2 : root1 = (L.RestoreGYO d.Root ops).1 ∧ rm = m := by
        rcases h2 with (h2 | h2 | h2) | h2 | h2
        · exact (hk _ h2 rfl).elim
        · simp at h2
        · simp only [Event.restoreTypes.injEq, and_true] at h2; exact h2
        · simp at h2
        · exact (htl _ h2 rfl).elim
      obtain ⟨rfl, rfl⟩ := e1
      obtain ⟨rfl, rfl⟩ := e2
      exact ⟨rfl, rfl, rfl, rfl, st, Or.inr (Or.inl rfl), hskip, hroot⟩

theorem setGraph_Root {T : Types} (L : Lib T) (g0 : T.Graph) (d : Decomp T) :
    (setGraph L g0 d).Root = d.Root := by
  unfold setGraph
  split <;> rfl

theorem writeCache_kind {T : Types} (L : Lib T) (w : World) (gml : String) (s : DetKDecomp T) :
    ∀ e ∈ (writeCache L w gml s).trace, e.kind = .cacheFile := by
  intro e he
  unfold writeCache at he
  split at he
  · exact absurd he (List.not_mem_nil _)
  · split at he <;> (rw [List.mem_singleton.1 he]; rfl)

theorem exportCacheBlock_kind {T : Types} (L : Lib T) (w : World) (f : Flags)
    (s : DetKDecomp T) :
    ∀ e ∈ (exportCacheBlock L w f s).trace, e.kind = .cacheFile ∨ e.kind = .info := by
  intro e he
  unfold exportCacheBlock at he
  split at he
  · split at he
    · rw [List.mem_singleton.1 he]; exact Or.inr rfl
    · exact Or.inl (writeCache_kind L w f.gml s e he)
  · exact absurd he (List.not_mem_nil _)

/-- The end of the update path is one `outputStanza` call, on the decomposition given,
against `parsedGraph`, with the check on, followed at most by the cache file. -/
theorem finishUpdate_shape {T : Types} (L : Lib T) (w : World) (f : Flags) (width : Int)
    (p : Prep T) (su : DetKDecomp T) (d : Decomp T) :
    ∃ tl, (finishUpdate L w f width p su d).trace
        = .outputStanza (outputStanza L w (L.Name su) d p.parsedGraph f.gml f.jsonFlag width
            false) :: tl ∧
      ∀ e ∈ tl, e.kind = .cacheFile := by
  unfold finishUpdate
  dsimp only
  split
  · exact ⟨[], rfl, fun e he => absurd he (List.not_mem_nil _)⟩
  · split
    · exact ⟨(writeCache L w f.gml su).trace, rfl, writeCache_kind L w f.gml su⟩
    · exact ⟨[], rfl, fun e he => absurd he (List.not_mem_nil _)⟩

/-- The end of the fresh path is one `outputStanza` call, against `originalGraph`, with
the check on, followed at most by the cache export. -/
theorem finishFresh_shape {T : Types} (L : Lib T) (w : World) (f : Flags) (g0 : T.Graph)
    (m : LoopOut T) (d : Decomp T) :
    ∃ tl, (finishFresh L w f g0 m d).trace
        = .outputStanza (outputStanza L w (L.Name m.solver) (setGraph L g0 d) g0 f.gml
            f.jsonFlag m.k false) :: tl ∧
      ∀ e ∈ tl, e.kind = .cacheFile ∨ e.kind = .info := by
  unfold finishFresh
  dsimp only
  split
  · exact ⟨[], rfl, fun e he => absurd he (List.not_mem_nil _)⟩
  · exact ⟨(exportCacheBlock L w f m.solver).trace, rfl, exportCacheBlock_kind L w f m.solver⟩

theorem updateSearch_result {T : Types} (L : Lib T) (w : World) (f : Flags) (su : DetKDecomp T)
    (se : Option (DetKDecomp T)) (g : T.Graph) (sc : T.HashMap) (pc : T.Cache)
    (x : List (Event T) × Decomp T × DetKDecomp T)
    (h : updateSearch L w f su se g sc pc = some x) :
    ∃ K, (K, x.2.1) ∈ searchResults x.1 := by
  unfold updateSearch at h
  dsimp only at h
  split at h
  · split at h
    · exact absurd h (by simp)
    · rename_i e
      split at h
      · have := Option.some.inj h
        subst this
        exact ⟨su.K, by simp [searchResults, Event.searchResult]⟩
      · have := Option.some.inj h
        subst this
        exact ⟨e.K, by simp [searchResults, Event.searchResult]⟩
  · have := Option.some.inj h
    subst this
    exact ⟨su.K, by simp [searchResults, Event.searchResult]⟩

/-- Whatever the descent holds in `decomp`, finished or not, is the decomposition it was
entered with or the result of one of its searches. -/
theorem approxLoop_held {T : Types} (L : Lib T) (hingeFlag : Bool) (hinget : T.Hingetree)
    (g : T.Graph) :
    ∀ (fuel : Nat) (solver : DetKDecomp T) (d : Decomp T) (k : Int),
      (approxLoop L hingeFlag hinget g fuel solver d k).decomp = d ∨
      ∃ K, (K, (approxLoop L hingeFlag hinget g fuel solver d k).decomp)
        ∈ searchResults (approxLoop L hingeFlag hinget g fuel solver d k).trace := by
  intro fuel
  induction fuel with
  | zero => intro solver d k; exact Or.inl rfl
  | succ n ih =>
    intro solver d k
    cases hc : L.Correct (searchAt L hingeFlag hinget g solver (k - 1)).1 g
    · rw [approxLoop_reject L hingeFlag hinget g n solver d k hc]
      exact Or.inl rfl
    · rw [approxLoop_accept L hingeFlag hinget g n solver d k hc]
      simp only [LoopOut.after]
      rw [searchResults_step]
      right
      rcases ih (searchAt L hingeFlag hinget g solver (k - 1)).2
        (searchAt L hingeFlag hinget g solver (k - 1)).1
        (L.CheckWidth (searchAt L hingeFlag hinget g solver (k - 1)).1) with h | ⟨K, h⟩
      · exact ⟨k - 1, by rw [h]; exact List.mem_cons_self _ _⟩
      · exact ⟨K, List.mem_cons_of_mem _ h⟩

theorem approxSearch_held {T : Types} (L : Lib T) (hingeFlag : Bool) (hinget : T.Hingetree)
    (g : T.Graph) (fuel : Nat) (s : DetKDecomp T) :
    ∃ K, (K, (approxSearch L hingeFlag hinget g fuel s).decomp)
      ∈ searchResults (approxSearch L hingeFlag hinget g fuel s).trace := by
  simp only [approxSearch, LoopOut.after]
  have hhead : ∀ tr : List (Event T),
      searchResults ([Event.findDecomp s.K (L.FindDecomp s).1] ++ tr)
        = (s.K, (L.FindDecomp s).1) :: searchResults tr := fun tr => rfl
  rw [hhead]
  rcases approxLoop_held L hingeFlag hinget g fuel (s.setState (L.FindDecomp s).2)
    (L.FindDecomp s).1 (L.CheckWidth (L.FindDecomp s).1) with h | ⟨K, h⟩
  · exact ⟨s.K, by rw [h]; exact List.mem_cons_self _ _⟩
  · exact ⟨K, List.mem_cons_of_mem _ h⟩

theorem approxProgress_held {T : Types} (L : Lib T) (hingeFlag : Bool) (hinget : T.Hingetree)
    (g : T.Graph) (t : Nat) (s : DetKDecomp T) :
    (approxProgress L hingeFlag hinget g t s).decomp = L.zeroDecomp ∨
    ∃ K, (K, (approxProgress L hingeFlag hinget g t s).decomp)
      ∈ searchResults (approxProgress L hingeFlag hinget g t s).trace := by
  cases t with
  | zero => exact Or.inl rfl
  | succ t => exact Or.inr (approxSearch_held L hingeFlag hinget g t s)

/-- The decomposition a finished search mode leaves behind is the result of one of its
search calls, or, after a timeout before the first search returned, the zero value. -/
theorem runMode_result {T : Types} (L : Lib T) (w : World) (f : Flags) (width : Int)
    (p : Prep T) (s : DetKDecomp T) (hfin : (runMode L w f width p s).finished = true) :
    (runMode L w f width p s).decomp = L.zeroDecomp ∨
    ∃ K, (K, (runMode L w f width p s).decomp) ∈ searchResults (runMode L w f width p s).trace := by
  cases hex : f.exactFlag
  · by_cases ha : 0 < f.approx
    · rw [runMode_select L w f width p s hex ha]
      unfold approxSelect
      split
      · exact Or.inr (approxSearch_held L _ _ _ _ s)
      · split
        · exact approxProgress_held L _ _ _ _ s
        · exact approxProgress_held L _ _ _ _ s
    · rw [runMode_plain L w f width p s hex (by omega)]
      right
      refine ⟨s.K, ?_⟩
      simp only [searchResults, List.filterMap_cons, searchEvent_result, List.filterMap_nil,
        List.mem_singleton]
  · rw [runMode_exact L w f width p s hex] at hfin ⊢
    exact Or.inr
      ⟨_, exactLoop_last L f.hingeFlag p.hinget p.parsedGraph w.fuel s L.zeroDecomp 1 hfin⟩

theorem EndsInRestore.after {T : Types} (L : Lib T) (r : Result T) (ops : List T.GYOReduct)
    (m : T.RemovalMap) (late : Option (Decomp T)) (evs : List (Event T))
    (h : EndsInRestore L r ops m late)
    (hevs : ∀ e ∈ evs, e.kind = .info ∨ e.kind = .prep) :
    EndsInRestore L (r.after evs) ops m late := by
  obtain ⟨c, d, pre, fin, rfl, hpre, hd, hfin⟩ := h
  refine ⟨c, d, evs ++ pre, fin, restoreThen_after L c d ops m pre evs fin, ?_, ?_, hfin⟩
  · intro e he
    rcases List.mem_append.1 he with he | he
    · rcases hevs e he with h | h <;> simp [h]
    · exact hpre e he
  · rcases hd with hd | ⟨K, hK⟩
    · exact Or.inl hd
    · right
      refine ⟨K, ?_⟩
      unfold searchResults at hK ⊢
      rw [List.filterMap_append]
      exact List.mem_append_right _ hK

theorem no_restore_after {T : Types} (r : Result T) (evs : List (Event T))
    (h : ∀ e ∈ r.trace, e.kind ≠ .restore) (hevs : ∀ e ∈ evs, e.kind = .info ∨ e.kind = .prep) :
    ∀ e ∈ (r.after evs).trace, e.kind ≠ .restore := by
  intro e he
  rcases List.mem_append.1 he with he | he
  · rcases hevs e he with h | h <;> simp [h]
  · exact h e he

theorem updatePath_restore {T : Types} (L : Lib T) (w : World) (f : Flags) (width : Int)
    (p : Prep T) (su se : Option (DetKDecomp T)) (pd : Decomp T) (pc : T.Cache) :
    (∀ e ∈ (updatePath L w f width p su se pd pc).trace, e.kind ≠ .restore) ∨
    EndsInRestore L (updatePath L w f width p su se pd pc) p.ops p.removalMap none := by
  unfold updatePath
  dsimp only
  split
  · left
    intro e he
    simp only [List.cons_append, List.nil_append, List.mem_cons, List.mem_singleton,
      List.not_mem_nil, or_false] at he
    rcases he with rfl | rfl | rfl <;> simp [Event.kind]
  · rename_i s
    split
    · left
      intro e he
      simp only [List.mem_cons, List.mem_singleton, List.not_mem_nil, or_false] at he
      rcases he with rfl | rfl <;> simp [Event.kind]
    · rename_i trS decomp su1 heq
      right
      have hkind := updateSearch_kind L w f s se p.parsedGraph _ pc _ heq
      have hres := updateSearch_result L w f s se p.parsedGraph _ pc _ heq
      simp only at hkind hres
      refine ⟨_, decomp, _, _, rfl, ?_, Or.inr ?_, ?_⟩
      · intro e he
        simp only [List.cons_append, List.nil_append, List.mem_cons] at he
        rcases he with rfl | rfl | he
        · simp [Event.kind]
        · simp [Event.kind]
        · simp [hkind e he]
      · obtain ⟨K, hK⟩ := hres
        refine ⟨K, ?_⟩
        unfold searchResults at hK ⊢
        rw [List.filterMap_append]
        exact List.mem_append_right _ hK
      · intro d1
        obtain ⟨tl, htr, htl⟩ := finishUpdate_shape L w f width p su1 d1
        exact ⟨_, tl, htr, rfl, rfl, fun e he => by simp [htl e he]⟩

theorem freshPath_restore {T : Types} (L : Lib T) (w : World) (f : Flags) (width : Int)
    (g0 : T.Graph) (p : Prep T) :
    (∀ e ∈ (freshPath L w f width g0 p).trace, e.kind ≠ .restore) ∨
    EndsInRestore L (freshPath L w f width g0 p) p.ops p.removalMap
      (lateStore L w f p (newDet L f width p.parsedGraph)) := by
  unfold freshPath
  cases hdet : f.detKTest
  · left
    intro e he
    simp only [Bool.false_eq_true, if_false, Nat.not_lt_zero, List.mem_singleton] at he
    rw [he]; simp [Event.kind]
  · simp only [if_true, Nat.lt_irrefl, if_false]
    unfold solveFresh
    dsimp only
    split
    · left
      intro e he
      simp [runMode_kind L w f width p _ e he]
    · rename_i hfin
      right
      have hfin2 : (runMode L w f width p (newDet L f width p.parsedGraph)).finished = true := by
        simpa using hfin
      refine ⟨_, _, _, _, rfl, ?_, runMode_result L w f width p _ hfin2, ?_⟩
      · intro e he
        simp [runMode_kind L w f width p _ e he]
      · intro d1
        obtain ⟨tl, htr, htl⟩ := finishFresh_shape L w f g0
          (runMode L w f width p (newDet L f width p.parsedGraph))
          ((lateStore L w f p (newDet L f width p.parsedGraph)).getD d1)
        refine ⟨_, tl, htr, rfl, setGraph_Root L g0 _, fun e he => ?_⟩
        rcases htl e he with h | h <;> simp [h]

theorem shortcutOutput_kind {T : Types} (L : Lib T) (w : World) (f : Flags) (width : Int)
    (g : T.Graph) (su : Option (DetKDecomp T)) (d : Decomp T) :
    ∀ e ∈ (shortcutOutput L w f width g su d).trace, e.kind = .info ∨ e.kind = .stanza := by
  intro e he
  unfold shortcutOutput at he
  split at he
  · rw [List.mem_singleton.1 he]; exact Or.inl rfl
  · rcases List.mem_cons.1 he with rfl | he
    · exact Or.inl rfl
    · rw [List.mem_singleton.1 he]; exact Or.inr rfl

theorem afterParse_restore {T : Types} (L : Lib T) (w : World) (f : Flags) (width : Int)
    (g : T.Graph) (pg : T.ParseGraph) :
    (∀ e ∈ (afterParse L w f width g pg).trace, e.kind ≠ .restore) ∨
    EndsInRestore L (afterParse L w f width g pg) (preprocess L f width g).ops
      (preprocess L f width g).removalMap
      (if f.decomp != "" then none
        else lateStore L w f (preprocess L f width g)
          (newDet L f width (preprocess L f width g).parsedGraph)) := by
  unfold afterParse
  split
  · rename_i r hr
    left
    obtain ⟨_, hr2⟩ := shortcut_done_inv L w f width g g pg r hr
    rcases hr2 with rfl | ⟨dis, _, _, rfl⟩
    · intro e he; exact absurd he (List.not_mem_nil _)
    · intro e he
      rcases shortcutOutput_kind L w f width g _ _ e he with h | h <;> simp [h]
  · split
    · rcases updatePath_restore L w f width (preprocess L f width g) _ _ _ _ with h | h
      · exact Or.inl (no_restore_after _ _ h (preprocess_kind L f width g))
      · exact Or.inr (EndsInRestore.after L _ _ _ _ _ h (preprocess_kind L f width g))
    · rcases freshPath_restore L w f width g (preprocess L f width g) with h | h
      · exact Or.inl (no_restore_after _ _ h (preprocess_kind L f width g))
      · exact Or.inr (EndsInRestore.after L _ _ _ _ _ h (preprocess_kind L f width g))

theorem main_restore {T : Types} (L : Lib T) (w : World) (f : Flags) :
    (∀ e ∈ (main L w f).trace, e.kind ≠ .restore) ∨
    ∃ dat, w.readFile f.graphPath = some dat ∧
      EndsInRestore L (main L w f)
        (preprocess L f (parseInput L f dat).2.2 (parseInput L f dat).1).ops
        (preprocess L f (parseInput L f dat).2.2 (parseInput L f dat).1).removalMap
        (mainLateStore L w f) := by
  have hpro : ∀ e ∈ (prologue f : List (Event T)), e.kind = .info ∨ e.kind = .prep :=
    fun e he => Or.inl (prologue_kind f e he)
  unfold main
  split
  · left
    intro e he
    split at he
    · rw [List.mem_singleton.1 he]; simp [Event.kind]
    · exact absurd he (List.not_mem_nil _)
  · split
    · left
      intro e he
      rcases List.mem_append.1 he with he | he
      · simp [prologue_kind f e he]
      · rw [List.mem_singleton.1 he]; simp [Event.kind]
    · split
      · left
        intro e he
        simp [prologue_kind f e he]
      · rename_i dat hdat
        have hlate : mainLateStore L w f =
            (if f.decomp != "" then none
              else lateStore L w f (preprocess L f (parseInput L f dat).2.2 (parseInput L f dat).1)
                (newDet L f (parseInput L f dat).2.2
                  (preprocess L f (parseInput L f dat).2.2
                    (parseInput L f dat).1).parsedGraph)) := by
          simp only [mainLateStore, hdat]
        rw [hlate]
        rcases afterParse_restore L w f (parseInput L f dat).2.2 (parseInput L f dat).1
          (parseInput L f dat).2.1 with h | h
        · exact Or.inl (no_restore_after _ _ h hpro)
        · exact Or.inr ⟨dat, hdat, EndsInRestore.after L _ _ _ _ _ h hpro⟩

theorem restoreThen_starts {T : Types} (L : Lib T) (c : Bool) (d : Decomp T)
    (ops : List T.GYOReduct) (m : T.RemovalMap) (pre : List (Event T))
    (fin : Decomp T → Result T) :
    ∃ tl, (restoreThen L c d ops m pre fin).trace = pre ++ tl := by
  unfold restoreThen
  split
  · exact ⟨_, rfl⟩
  · exact ⟨_, by rw [Result.after_trace, List.append_assoc]⟩

/-- There is no late assignment to `decomp` outside a timed-out approximate run on the
fresh path in which the goroutine takes further steps. -/
theorem mainLateStore_none {T : Types} (L : Lib T) (w : World) (f : Flags)
    (h : f.exactFlag = true ∨ f.approx ≤ 0 ∨ (f.decomp != "") = true ∨ w.timer = none ∨
      w.lateSteps = 0) : mainLateStore L w f = none := by
  unfold mainLateStore
  split
  · rfl
  · split
    · rfl
    · rename_i hd
      unfold lateStore
      split
      · rfl
      · rename_i hex
        split
        · rename_i ha
          split
          · rfl
          · rename_i t ht
            rcases h with h | h | h | h | h
            · exact absurd h hex
            · omega
            · exact absurd h hd
            · rw [ht] at h; exact absurd h (by simp)
            · rw [h]
              simp
        · rfl

/-- C6: restoration failure and the restored root.  On both paths, when a GYO or
type-collapse restore call of a run returned `false`, `main` ends in the `log.Panicln`
panic and its trace has no `outputStanza` call (so no verdict, GML or JSON file) and no
cache file.  When the GYO restore and the type restore both returned `true`, they were
applied in this order, GYO first and types second, the reverse of the reductions, with
the `ops` and the `removalMap` of the preprocessing block, to the root of what
`decomp` held (the result of a search of the run or, after a timeout before the first
search returned, the zero value), and `outputStanza` was called with the check on.
In every run without a late assignment (exact and plain mode, the update path,
approximate mode when the goroutine delivers first or takes no further step) the
decomposition handed over has the root `RestoreTypes(RestoreGYO(root, ops), removalMap)`;
when the goroutine of a timed-out approximate run has assigned a decomposition to
`decomp` after the restore block, that decomposition is handed over, with its own
root. -/
theorem restoration_failure_fatal {T : Types} (L : Lib T) (w : World) (f : Flags) :
    (∀ e ∈ (main L w f).trace, e.isRestoreFailure = true →
      (main L w f).outcome = .restorePanic ∧
      ∀ e2 ∈ (main L w f).trace, e2.kind ≠ .stanza ∧ e2.kind ≠ .cacheFile) ∧
    (∀ root ops root1 rm, Event.restoreGYO root ops true ∈ (main L w f).trace →
      Event.restoreTypes root1 rm true ∈ (main L w f).trace →
      root1 = (L.RestoreGYO root ops).1 ∧
      ((∃ K d, (K, d) ∈ searchResults (main L w f).trace ∧ d.Root = root) ∨
        root = L.zeroDecomp.Root) ∧
      (∃ dat, w.readFile f.graphPath = some dat ∧
        ops = (preprocess L f (parseInput L f dat).2.2 (parseInput L f dat).1).ops ∧
        rm = (preprocess L f (parseInput L f dat).2.2 (parseInput L f dat).1).removalMap) ∧
      ∃ st, Event.outputStanza st ∈ (main L w f).trace ∧ st.skipCheck = false ∧
        (mainLateStore L w f = none →
          st.decomp.Root = (L.RestoreTypes (L.RestoreGYO root ops).1 rm).1) ∧
        (∀ late, mainLateStore L w f = some late → st.decomp.Root = late.Root)) ∧
    (f.exactFlag = true ∨ f.approx ≤ 0 ∨ (f.decomp != "") = true ∨ w.timer = none ∨
      w.lateSteps = 0 → mainLateStore L w f = none) := by
  refine ⟨?_, ?_, mainLateStore_none L w f⟩
  · rcases main_restore L w f with hno | ⟨dat, hdat, c, d, pre, fin, hmain, hpre, hd, hfin⟩
    · exact fun e he hf => absurd (restoreFailure_kind e hf) (hno e he)
    · rw [hmain]
      exact (restoreThen_spec L c d
        (preprocess L f (parseInput L f dat).2.2 (parseInput L f dat).1).ops
        (preprocess L f (parseInput L f dat).2.2 (parseInput L f dat).1).removalMap
        pre fin (mainLateStore L w f) hpre hfin).1
  · rcases main_restore L w f with hno | ⟨dat, hdat, c, d, pre, fin, hmain, hpre, hd, hfin⟩
    · intro root ops root1 rm h1 _
      exact absurd rfl (hno _ h1)
    · intro root ops root1 rm h1 h2
      rw [hmain] at h1 h2
      obtain ⟨e1, e2, e3, e4, st, hst, hskip, hroot⟩ :=
        (restoreThen_spec L c d
          (preprocess L f (parseInput L f dat).2.2 (parseInput L f dat).1).ops
          (preprocess L f (parseInput L f dat).2.2 (parseInput L f dat).1).removalMap
          pre fin (mainLateStore L w f) hpre hfin).2 root ops root1 rm h1 h2
      refine ⟨e4, ?_, ⟨dat, hdat, e2, e3⟩, st, by rw [hmain]; exact hst, hskip, ?_, ?_⟩
      · rcases hd with hd | ⟨K, hK⟩
        · right; rw [e1, hd]
        · left
          refine ⟨K, d, ?_, e1.symm⟩
          obtain ⟨tl, htl⟩ := restoreThen_starts L c d
            (preprocess L f (parseInput L f dat).2.2 (parseInput L f dat).1).ops
            (preprocess L f (parseInput L f dat).2.2 (parseInput L f dat).1).removalMap pre fin
          rw [hmain, htl]
          unfold searchResults at hK ⊢
          rw [List.filterMap_append]
          exact List.mem_append_left _ hK
      · intro hn
        rw [hn] at hroot
        exact hroot
      · intro late hl
        rw [hl] at hroot
        exact hroot

/-- C6, at the failing input `-graph g3 -det -approx 5 -g -width 7` with the timer firing
after the first `FindDecomp` and the goroutine accepting its next search before `main`
reads `decomp` for the output: both restore calls return `true`, the restored root is
8, and `outputStanza` receives the later decomposition with the unrestored root 6.
With a failing GYO restore a plain run ends in the panic. -/
theorem restoration_failure_fatal_witness :
    (main failLib toyWorld plainFlags).outcome = .restorePanic ∧
    mainLateStore slackLib raceWorld raceFlags = some ⟨(2 : Nat), (6 : Nat)⟩ ∧
    (slackLib.RestoreTypes (slackLib.RestoreGYO (7 : Nat) [()]).1 (0 : Nat)).1 = (8 : Nat) ∧
    ∃ st : Stanza toyTypes, Event.outputStanza st ∈ (main slackLib raceWorld raceFlags).trace ∧
      st.skipCheck = false ∧ st.decomp.Root = (6 : Nat) :=
  ⟨((restoration_failure_fatal failLib toyWorld plainFlags).1
      (Event.restoreGYO (3 : Nat) [] false)
      (List.mem_iff_get.2 ⟨⟨1, by decide⟩, rfl⟩) rfl).1,
    rfl, rfl,
    (((restoration_failure_fatal slackLib raceWorld raceFlags).2.1 (7 : Nat) [()] (8 : Nat)
      (0 : Nat) (List.mem_iff_get.2 ⟨⟨3, by decide⟩, rfl⟩)
      (List.mem_iff_get.2 ⟨⟨4, by decide⟩, rfl⟩)).2.2.2).elim
      fun st hst => ⟨st, hst.1, hst.2.1, hst.2.2.2 ⟨(2 : Nat), (6 : Nat)⟩ rfl⟩⟩

/-! ### The `outputStanza` calls of a run -/

theorem outputStanza_checked {T : Types} (L : Lib T) (w : World) (alg : String) (d : Decomp T)
    (g : T.Graph) (gml json : String) (K : Int) :
    (outputStanza L w alg d g gml json K false).checked L := by
  refine ⟨fun _ => rfl, fun h => absurd h (by simp [outputStanza]), ?_⟩
  intro h
  cases hc : L.Correct (L.RestoreSubedges d) g
  · simp [outputStanza, hc] at h
  · simp [outputStanza, hc]

theorem outputStanza_checked_skip {T : Types} (L : Lib T) (w : World) (alg : String)
    (d : Decomp T) (g : T.Graph) (gml json : String) (K : Int) (hc : L.Correct d g = true) :
    (outputStanza L w alg d g gml json K true).checked L :=
  ⟨fun h => absurd h (by simp [outputStanza]), fun _ => ⟨rfl, hc⟩, fun _ => rfl⟩

theorem restoreIf_kind {T : Types} (L : Lib T) (c : Bool) (d : Decomp T)
    (ops : List T.GYOReduct) (m : T.RemovalMap) :
    ∀ e ∈ (restoreIf L c d ops m).1, e.kind = .restore ∨ e.kind = .info := by
  intro e he
  rcases restoreIf_inv L c d ops m with ⟨_, hrs⟩ | ⟨_, _, hrs⟩ | ⟨_, _, _, hrs⟩ | ⟨_, _, _, hrs⟩
  · rw [hrs] at he
    exact absurd he (List.not_mem_nil _)
  · rw [hrs] at he
    simp only [List.mem_cons, List.mem_singleton, List.not_mem_nil, or_false] at he
    rcases he with rfl | rfl | rfl <;> simp [Event.kind]
  · rw [hrs] at he
    simp only [List.mem_cons, List.mem_singleton, List.not_mem_nil, or_false] at he
    rcases he with rfl | rfl | rfl | rfl <;> simp [Event.kind]
  · rw [hrs] at he
    simp only [List.mem_cons, List.mem_singleton, List.not_mem_nil, or_false] at he
    rcases he with rfl | rfl <;> simp [Event.kind]

theorem restoreThen_stanza {T : Types} (L : Lib T) (c : Bool) (d : Decomp T)
    (ops : List T.GYOReduct) (m : T.RemovalMap) (pre : List (Event T))
    (fin : Decomp T → Result T) (hpre : ∀ e ∈ pre, e.kind ≠ .stanza) (st : Stanza T)
    (h : Event.outputStanza st ∈ (restoreThen L c d ops m pre fin).trace) :
    ∃ d1, Event.outputStanza st ∈ (fin d1).trace := by
  have hrs : ∀ e ∈ (restoreIf L c d ops m).1, e.kind ≠ .stanza := by
    intro e he
    rcases restoreIf_kind L c d ops m e he with h | h <;> simp [h]
  unfold restoreThen at h
  split at h
  · rcases List.mem_append.1 h with h | h
    · exact absurd rfl (hpre _ h)
    · exact absurd rfl (hrs _ h)
  · rename_i d1 _
    rw [Result.after_trace] at h
    rcases List.mem_append.1 h with h | h
    · rcases List.mem_append.1 h with h | h
      · exact absurd rfl (hpre _ h)
      · exact absurd rfl (hrs _ h)
    · exact ⟨d1, h⟩

theorem updatePath_stanza {T : Types} (L : Lib T) (w : World) (f : Flags) (width : Int)
    (p : Prep T) (su se : Option (DetKDecomp T)) (pd : Decomp T) (pc : T.Cache) (st : Stanza T)
    (h : Event.outputStanza st ∈ (updatePath L w f width p su se pd pc).trace) :
    ∃ alg d, st = outputStanza L w alg d p.parsedGraph f.gml f.jsonFlag width false := by
  unfold updatePath at h
  dsimp only at h
  split at h
  · simp at h
  · rename_i s
    split at h
    · simp at h
    · rename_i trS decomp su1 heq
      have hkind := updateSearch_kind L w f s se p.parsedGraph _ pc _ heq
      simp only at hkind
      obtain ⟨d1, hd1⟩ := restoreThen_stanza L _ _ _ _ _ _ (by
        intro e he
        simp only [List.cons_append, List.nil_append, List.mem_cons] at he
        rcases he with rfl | rfl | he
        · simp [Event.kind]
        · simp [Event.kind]
        · simp [hkind e he]) st h
      obtain ⟨tl, htr, htl⟩ := finishUpdate_shape L w f width p su1 d1
      rw [htr] at hd1
      rcases List.mem_cons.1 hd1 with h1 | h1
      · exact ⟨_, _, Event.outputStanza.inj h1⟩
      · exact absurd (htl _ h1) (by simp [Event.kind])

theorem freshPath_stanza {T : Types} (L : Lib T) (w : World) (f : Flags) (width : Int)
    (g0 : T.Graph) (p : Prep T) (st : Stanza T)
    (h : Event.outputStanza st ∈ (freshPath L w f width g0 p).trace) :
    ∃ alg d K, st = outputStanza L w alg d g0 f.gml f.jsonFlag K false := by
  unfold freshPath at h
  cases hdet : f.detKTest
  · simp [hdet] at h
  · simp only [hdet, if_true, Nat.lt_irrefl, if_false] at h
    unfold solveFresh at h
    dsimp only at h
    split at h
    · exact absurd (runMode_kind L w f width p _ _ h) (by simp [Event.kind])
    · obtain ⟨d1, hd1⟩ := restoreThen_stanza L _ _ _ _ _ _ (by
        intro e he
        simp [runMode_kind L w f width p _ e he]) st h
      obtain ⟨tl, htr, htl⟩ := finishFresh_shape L w f g0
        (runMode L w f width p (newDet L f width p.parsedGraph))
        ((lateStore L w f p (newDet L f width p.parsedGraph)).getD d1)
      rw [htr] at hd1
      rcases List.mem_cons.1 hd1 with h1 | h1
      · exact ⟨_, _, _, Event.outputStanza.inj h1⟩
      · rcases htl _ h1 with h2 | h2 <;> simp [Event.kind] at h2

/-- The three places where `main` calls `outputStanza`: the shortcut, with the check
skipped after the parsed decomposition passed `Correct` on the graph it hands over; the
update path, against the preprocessed `parsedGraph`; the fresh path, against
`originalGraph`. -/
theorem afterParse_stanza {T : Types} (L : Lib T) (w : World) (f : Flags) (width : Int)
    (g : T.Graph) (pg : T.ParseGraph) (st : Stanza T)
    (h : Event.outputStanza st ∈ (afterParse L w f width g pg).trace) :
    (∃ alg dis, w.readFile f.decomp = some dis ∧
      L.Correct (L.GetDecomp dis g (L.Encoding pg)) g = true ∧
      st = outputStanza L w alg (L.GetDecomp dis g (L.Encoding pg)) g f.gml f.jsonFlag width
        true) ∨
    ((f.decomp != "") = true ∧ ∃ alg d,
      st = outputStanza L w alg d (preprocess L f width g).parsedGraph f.gml f.jsonFlag width
        false) ∨
    ((f.decomp != "") = false ∧ ∃ alg d K,
      st = outputStanza L w alg d g f.gml f.jsonFlag K false) := by
  have hprep : ∀ e ∈ (preprocess L f width g).trace, e.kind ≠ .stanza := by
    intro e he
    rcases preprocess_kind L f width g e he with h | h <;> simp [h]
  unfold afterParse at h
  split at h
  · rename_i r hr
    obtain ⟨_, hr2⟩ := shortcut_done_inv L w f width g g pg r hr
    rcases hr2 with rfl | ⟨dis, hdis, hc, rfl⟩
    · simp at h
    · left
      unfold shortcutOutput at h
      split at h
      · simp at h
      · rename_i su _
        simp only [List.mem_cons, List.mem_singleton, List.not_mem_nil, or_false] at h
        rcases h with h | h
        · simp at h
        · exact ⟨_, dis, hdis, hc, Event.outputStanza.inj h⟩
  · split at h
    · rename_i hd
      right; left
      rw [Result.after_trace] at h
      rcases List.mem_append.1 h with h | h
      · exact absurd rfl (hprep _ h)
      · exact ⟨hd, updatePath_stanza L w f width _ _ _ _ _ st h⟩
    · rename_i hd
      right; right
      rw [Result.after_trace] at h
      rcases List.mem_append.1 h with h | h
      · exact absurd rfl (hprep _ h)
      · exact ⟨by simpa using hd, freshPath_stanza L w f width g _ st h⟩

theorem main_stanza {T : Types} (L : Lib T) (w : World) (f : Flags) (st : Stanza T)
    (h : Event.outputStanza st ∈ (main L w f).trace) :
    ∃ dat, w.readFile f.graphPath = some dat ∧
      Event.outputStanza st ∈ (afterParse L w f (parseInput L f dat).2.2 (parseInput L f dat).1
        (parseInput L f dat).2.1).trace := by
  unfold main at h
  split at h
  · split at h <;> simp at h
  · split at h
    · rcases List.mem_append.1 h with h | h
      · exact absurd (prologue_kind f _ h) (by simp [Event.kind])
      · simp at h
    · split at h
      · exact absurd (prologue_kind f _ h) (by simp [Event.kind])
      · rename_i dat hdat
        rw [Result.after_trace] at h
        rcases List.mem_append.1 h with h | h
        · exact absurd (prologue_kind f _ h) (by simp [Event.kind])
        · exact ⟨dat, hdat, h⟩

/-- C3. A failed final check is never silently accepted.  For every `outputStanza` call
made by `main`: when the check is on, the verdict printed is `Correct` of the
decomposition (its subedges restored) against the graph passed, and when that is false
neither the GML nor the JSON file is created; the check is skipped only in the shortcut
call, whose decomposition is the parsed one and passed `Correct` against the same graph
at the guard before the call; a GML or JSON file is created only on a true verdict. -/
theorem failed_check_never_accepted {T : Types} (L : Lib T) (w : World) (f : Flags)
    (st : Stanza T) (h : Event.outputStanza st ∈ (main L w f).trace) :
    st.checked L ∧
    (st.skipCheck = false → L.Correct (L.RestoreSubedges st.decomp) st.graph = false →
      st.correct = false ∧ st.gmlCreated = false ∧ st.jsonCreated = false) ∧
    (st.skipCheck = true → ∃ dat dis, w.readFile f.graphPath = some dat ∧
      w.readFile f.decomp = some dis ∧ st.graph = (parseInput L f dat).1 ∧
      st.decomp = L.GetDecomp dis (parseInput L f dat).1 (L.Encoding (parseInput L f dat).2.1) ∧
      L.Correct st.decomp st.graph = true) := by
  obtain ⟨dat, hdat, h2⟩ := main_stanza L w f st h
  have hchk : st.checked L := by
    rcases afterParse_stanza L w f _ _ _ st h2 with
      ⟨alg, dis, _, hc, rfl⟩ | ⟨_, alg, d, rfl⟩ | ⟨_, alg, d, K, rfl⟩
    · exact outputStanza_checked_skip L w _ _ _ _ _ _ hc
    · exact outputStanza_checked L w _ _ _ _ _ _
    · exact outputStanza_checked L w _ _ _ _ _ _
  refine ⟨hchk, ?_, ?_⟩
  · intro hs hc
    have hcor : st.correct = false := by rw [hchk.1 hs, hc]
    refine ⟨hcor, ?_, ?_⟩
    · cases hg : st.gmlCreated
      · rfl
      · have := hchk.2.2 (Or.inl hg)
        rw [hcor] at this
        exact absurd this Bool.false_ne_true
    · cases hj : st.jsonCreated
      · rfl
      · have := hchk.2.2 (Or.inr hj)
        rw [hcor] at this
        exact absurd this Bool.false_ne_true
  · intro hs
    rcases afterParse_stanza L w f _ _ _ st h2 with
      ⟨alg, dis, hdis, hc, rfl⟩ | ⟨_, alg, d, rfl⟩ | ⟨_, alg, d, K, rfl⟩
    · exact ⟨dat, dis, hdat, hdis, rfl, rfl, hc⟩
    · exact absurd hs (by simp [outputStanza])
    · exact absurd hs (by simp [outputStanza])

/-- C3, at a run: the shortcut call on the correct decomposition `d3`. -/
theorem failed_check_never_accepted_witness :
    (outputStanza toyLib toyWorld "DetKDecomp" ⟨(3 : Nat), (3 : Nat)⟩ (3 : Nat) "" "" 3 true).checked
      toyLib :=
  (failed_check_never_accepted toyLib toyWorld shortcutFlags
    (outputStanza toyLib toyWorld "DetKDecomp" ⟨(3 : Nat), (3 : Nat)⟩ (3 : Nat) "" "" 3 true)
    (List.mem_iff_get.2 ⟨⟨1, by decide⟩, rfl⟩)).1

/-- C8: the graph of the final check.  Every `outputStanza` call of `main` with the
check on computes its verdict against the graph it is handed; on the update path
(`-decomp` given) that graph is `parsedGraph` as left by the heuristic, the reductions
and the subedge step, on the fresh path it is `originalGraph`. -/
theorem final_check_graph {T : Types} (L : Lib T) (w : World) (f : Flags) (st : Stanza T)
    (h : Event.outputStanza st ∈ (main L w f).trace) (hs : st.skipCheck = false) :
    ∃ dat, w.readFile f.graphPath = some dat ∧
      st.correct = L.Correct (L.RestoreSubedges st.decomp) st.graph ∧
      ((f.decomp != "") = true →
        st.graph = (preprocess L f (parseInput L f dat).2.2 (parseInput L f dat).1).parsedGraph) ∧
      ((f.decomp != "") = false → st.graph = (parseInput L f dat).1) := by
  obtain ⟨dat, hdat, h2⟩ := main_stanza L w f st h
  refine ⟨dat, hdat, ?_⟩
  rcases afterParse_stanza L w f _ _ _ st h2 with
    ⟨alg, dis, _, hc, rfl⟩ | ⟨hd, alg, d, rfl⟩ | ⟨hd, alg, d, K, rfl⟩
  · exact absurd hs (by simp [outputStanza])
  · exact ⟨rfl, fun _ => rfl, fun h => by rw [hd] at h; exact absurd h (by simp)⟩
  · exact ⟨rfl, fun h => by rw [hd] at h; exact absurd h (by simp), fun _ => rfl⟩

/-- C8, at the failing input `-graph g3 -decomp d1 -det -t -width 3`: the update path
checks the restored decomposition against the collapsed graph 2, not the original
graph 3, and reports `Correct: false` for a decomposition that is correct for the
original graph; the fresh path on the same graph checks against the original. -/
theorem final_check_graph_witness :
    ∃ st : Stanza toyTypes, Event.outputStanza st ∈ (main toyLib toyWorld updateFlags).trace ∧
      st.graph = (2 : Nat) ∧ (parseInput toyLib updateFlags "abc").1 = (3 : Nat) ∧
      st.correct = false ∧ toyLib.Correct (toyLib.RestoreSubedges st.decomp) (3 : Nat) = true ∧
      ∃ st2 : Stanza toyTypes, Event.outputStanza st2 ∈ (main toyLib toyWorld freshFlags).trace ∧
        st2.graph = (3 : Nat) ∧ st2.correct = true :=
  have hmem : Event.outputStanza
      (outputStanza toyLib toyWorld "DetKDecomp" ⟨(2 : Nat), (3 : Nat)⟩ (2 : Nat) "" "" 3 false)
      ∈ (main toyLib toyWorld updateFlags).trace := List.mem_iff_get.2 ⟨⟨7, by decide⟩, rfl⟩
  have hmem2 : Event.outputStanza
      (outputStanza toyLib toyWorld "DetKDecomp" ⟨(3 : Nat), (3 : Nat)⟩ (3 : Nat) "" "" 3 false)
      ∈ (main toyLib toyWorld freshFlags).trace := List.mem_iff_get.2 ⟨⟨5, by decide⟩, rfl⟩
  have h := final_check_graph toyLib toyWorld updateFlags _ hmem rfl
  h.elim fun dat hd =>
    ⟨_, hmem, (hd.2.2.1 (by decide)).trans (by
        have : dat = "abc" := (Option.some.inj hd.1).symm
        subst this; rfl), rfl, rfl, rfl, _, hmem2, rfl, rfl⟩

/-! ### The shortcut and the nil solver -/

theorem main_eq_afterParse {T : Types} (L : Lib T) (w : World) (f : Flags) (dat : String)
    (hprof : (f.cpuprofile != "" && !w.createOK f.cpuprofile) = false)
    (husage : usageCheck f = false) (hdat : w.readFile f.graphPath = some dat) :
    main L w f = (afterParse L w f (parseInput L f dat).2.2 (parseInput L f dat).1
      (parseInput L f dat).2.1).after (prologue f) := by
  unfold main
  rw [if_neg (by rw [hprof]; exact Bool.false_ne_true),
    if_neg (by rw [husage]; exact Bool.false_ne_true)]
  simp only [hdat]

theorem shortcut_correct {T : Types} (L : Lib T) (w : World) (f : Flags) (width : Int)
    (g : T.Graph) (pg : T.ParseGraph) (dis : String) (hd : (f.decomp != "") = true)
    (hdis : w.readFile f.decomp = some dis)
    (hc : L.Correct (L.GetDecomp dis g (L.Encoding pg)) g = true) :
    shortcut L w f width g g pg = .done (shortcutOutput L w f width g
      (if f.detKTest then some (newDet L f width g) else none)
      (L.GetDecomp dis g (L.Encoding pg))) := by
  unfold shortcut
  rw [if_pos hd]
  simp only [hdis, hc, if_true]

theorem shortcut_incorrect {T : Types} (L : Lib T) (w : World) (f : Flags) (width : Int)
    (g : T.Graph) (pg : T.ParseGraph) (dis : String) (hd : (f.decomp != "") = true)
    (hdis : w.readFile f.decomp = some dis)
    (hc : L.Correct (L.GetDecomp dis g (L.Encoding pg)) g = false)
    (hcache : f.cache = "" ∨ ∃ c, w.readFile f.cache = some c) :
    ∃ pc, shortcut L w f width g g pg = .go
      (if f.detKTest then some (newDet L f width g) else none)
      (if f.detKTest && f.ensemble then some (newDet L f width g) else none)
      (L.GetDecomp dis g (L.Encoding pg)) pc := by
  unfold shortcut
  rw [if_pos hd]
  simp only [hdis, hc, Bool.false_eq_true, if_false]
  rcases hcache with h | ⟨c, h⟩
  · rw [if_neg (by simp [h])]
    exact ⟨_, rfl⟩
  · split
    · simp only [h]
      exact ⟨_, rfl⟩
    · exact ⟨_, rfl⟩

theorem updatePath_scene {T : Types} (L : Lib T) (w : World) (f : Flags) (width : Int)
    (p : Prep T) (su se : Option (DetKDecomp T)) (pd : Decomp T) (pc : T.Cache) :
    Event.sceneCreation p.parsedGraph ∈ (updatePath L w f width p su se pd pc).trace := by
  unfold updatePath
  dsimp only
  split
  · simp
  · split
    · simp
    · obtain ⟨tl, htl⟩ := restoreThen_starts L _ _ p.ops p.removalMap
        ([Event.sceneCreation p.parsedGraph, Event.print "Extracted scenes: "] ++ _) _
      rw [htl]
      simp

/-- C2: the shortcut on a supplied decomposition.  For a run that passes the usage check and
reads its graph and decomposition files: when the parsed decomposition passes
`Correct` against the original graph the run makes no search call, applies no
heuristic or reduction and creates no scenes; with `-det` it prints the message, calls
`outputStanza` on exactly the parsed decomposition with the check skipped, and
returns (unless an output file cannot be created); without `-det` the call
`solverUpdate.Name()` is made on the nil interface and the run panics before
`outputStanza`.  When the check fails (and the cache, if given, is readable) the run
goes on to the update path, where `SceneCreation` is called. -/
theorem shortcut_on_correct_decomp {T : Types} (L : Lib T) (w : World) (f : Flags)
    (dat dis : String)
    (hprof : (f.cpuprofile != "" && !w.createOK f.cpuprofile) = false)
    (husage : usageCheck f = false) (hdat : w.readFile f.graphPath = some dat)
    (hd : (f.decomp != "") = true) (hdis : w.readFile f.decomp = some dis) :
    (L.Correct (L.GetDecomp dis (parseInput L f dat).1 (L.Encoding (parseInput L f dat).2.1))
        (parseInput L f dat).1 = true →
      noSearch (main L w f).trace = true ∧
      (∀ e ∈ (main L w f).trace, e.isPreprocessing = false ∧ e.isSceneCreation = false) ∧
      (f.detKTest = true →
        (main L w f).trace = prologue f ++
          [.print " Parsed Decomposition already correct, skipping update computation.",
            .outputStanza (outputStanza L w
              (L.Name (newDet L f (parseInput L f dat).2.2 (parseInput L f dat).1))
              (L.GetDecomp dis (parseInput L f dat).1 (L.Encoding (parseInput L f dat).2.1))
              (parseInput L f dat).1 f.gml f.jsonFlag (parseInput L f dat).2.2 true)] ∧
        ((main L w f).outcome = .returned ∨ (main L w f).outcome = .ioPanic)) ∧
      (f.detKTest = false →
        (main L w f).trace = prologue f ++
          [.print " Parsed Decomposition already correct, skipping update computation."] ∧
        (main L w f).outcome = .nilPanic)) ∧
    (L.Correct (L.GetDecomp dis (parseInput L f dat).1 (L.Encoding (parseInput L f dat).2.1))
        (parseInput L f dat).1 = false →
      (f.cache = "" ∨ ∃ c, w.readFile f.cache = some c) →
      Event.sceneCreation
        (preprocess L f (parseInput L f dat).2.2 (parseInput L f dat).1).parsedGraph
        ∈ (main L w f).trace) := by
  rw [main_eq_afterParse L w f dat hprof husage hdat]
  constructor
  · intro hc
    have hsc := shortcut_correct L w f (parseInput L f dat).2.2 (parseInput L f dat).1
      (parseInput L f dat).2.1 dis hd hdis hc
    have hap : afterParse L w f (parseInput L f dat).2.2 (parseInput L f dat).1
        (parseInput L f dat).2.1 = shortcutOutput L w f (parseInput L f dat).2.2
          (parseInput L f dat).1
          (if f.detKTest then some (newDet L f (parseInput L f dat).2.2 (parseInput L f dat).1)
            else none)
          (L.GetDecomp dis (parseInput L f dat).1 (L.Encoding (parseInput L f dat).2.1)) := by
      unfold afterParse
      rw [hsc]
    rw [hap]
    refine ⟨?_, ?_, ?_, ?_⟩
    · rw [Result.after_trace, noSearch_append, prologue_noSearch, shortcutOutput_noSearch]
      rfl
    · intro e he
      rw [Result.after_trace] at he
      rcases List.mem_append.1 he with he | he
      · have := prologue_kind f e he
        cases e <;> simp_all [Event.kind, Event.isPreprocessing, Event.isSceneCreation]
      · rcases shortcutOutput_kind L w f _ _ _ _ e he with h | h <;>
          cases e <;> simp_all [Event.kind, Event.isPreprocessing, Event.isSceneCreation]
    · intro hdet
      rw [hdet]
      simp only [if_true, shortcutOutput, Result.after_trace, Result.after_outcome, true_and]
      split
      · exact Or.inr rfl
      · exact Or.inl rfl
    · intro hdet
      rw [hdet]
      exact ⟨rfl, rfl⟩
  · intro hc hcache
    obtain ⟨pc, hsc⟩ := shortcut_incorrect L w f (parseInput L f dat).2.2 (parseInput L f dat).1
      (parseInput L f dat).2.1 dis hd hdis hc hcache
    unfold afterParse
    rw [hsc]
    simp only [hd, if_true, Result.after_trace]
    exact List.mem_append_right _ (List.mem_append_right _ (updatePath_scene L w f _ _ _ _ _ _))

/-- C2, at the failing input `-graph g3 -width 3 -decomp d3` (no `-det`): the parsed
decomposition is correct, the run prints the message and panics on the nil solver. -/
theorem shortcut_on_correct_decomp_witness :
    (main toyLib toyWorld noSolverFlags).trace =
      [.print " Parsed Decomposition already correct, skipping update computation."] ∧
    (main toyLib toyWorld noSolverFlags).outcome = .nilPanic :=
  ((shortcut_on_correct_decomp toyLib toyWorld noSolverFlags "abc" "xyz" rfl (by decide) rfl
    (by decide) rfl).1 rfl).2.2.2 rfl

theorem writeCache_outcome {T : Types} (L : Lib T) (w : World) (gml : String)
    (s : DetKDecomp T) : (writeCache L w gml s).outcome ≠ .nilPanic := by
  unfold writeCache
  split
  · simp
  · split <;> simp

theorem finishUpdate_outcome {T : Types} (L : Lib T) (w : World) (f : Flags) (width : Int)
    (p : Prep T) (s : DetKDecomp T) (d : Decomp T) :
    (finishUpdate L w f width p s d).outcome ≠ .nilPanic := by
  unfold finishUpdate
  dsimp only
  split
  · simp
  · split
    · rw [Result.after_outcome]; exact writeCache_outcome L w f.gml s
    · simp

theorem finishFresh_outcome {T : Types} (L : Lib T) (w : World) (f : Flags) (g0 : T.Graph)
    (m : LoopOut T) (d : Decomp T) : (finishFresh L w f g0 m d).outcome ≠ .nilPanic := by
  unfold finishFresh
  dsimp only
  split
  · simp
  · rw [Result.after_outcome]
    unfold exportCacheBlock
    split
    · split
      · simp
      · exact writeCache_outcome L w f.gml m.solver
    · simp

theorem restoreThen_outcome {T : Types} (L : Lib T) (c : Bool) (d : Decomp T)
    (ops : List T.GYOReduct) (m : T.RemovalMap) (pre : List (Event T))
    (fin : Decomp T → Result T) (hfin : ∀ d1, (fin d1).outcome ≠ .nilPanic) :
    (restoreThen L c d ops m pre fin).outcome ≠ .nilPanic := by
  unfold restoreThen
  split
  · simp
  · rw [Result.after_outcome]; exact hfin _

theorem freshPath_outcome {T : Types} (L : Lib T) (w : World) (f : Flags) (width : Int)
    (g0 : T.Graph) (p : Prep T) : (freshPath L w f width g0 p).outcome ≠ .nilPanic := by
  unfold freshPath
  cases hdet : f.detKTest
  · simp
  · simp only [if_true, Nat.lt_irrefl, if_false]
    unfold solveFresh
    dsimp only
    split
    · simp
    · exact restoreThen_outcome L _ _ _ _ _ _ (fun d1 => finishFresh_outcome L w f g0 _ _)

/-- On the update path a method is called on a nil solver only under `-ensemble` with
`solverUpdate` set and `solverEnsemble` unset. -/
theorem updatePath_outcome {T : Types} (L : Lib T) (w : World) (f : Flags) (width : Int)
    (p : Prep T) (su se : Option (DetKDecomp T)) (pd : Decomp T) (pc : T.Cache)
    (h : (updatePath L w f width p su se pd pc).outcome = .nilPanic) :
    su ≠ none ∧ f.ensemble = true ∧ se = none := by
  unfold updatePath at h
  dsimp only at h
  split at h
  · simp at h
  · rename_i s
    split at h
    · rename_i heq
      unfold updateSearch at heq
      dsimp only at heq
      split at heq
      · rename_i hens
        split at heq
        · exact ⟨by simp, hens, rfl⟩
        · split at heq <;> simp at heq
      · simp at heq
    · exact absurd h (restoreThen_outcome L _ _ _ _ _ _ (finishUpdate_outcome L w f width p _))

/-- C9: calls on an unset solver.  A run of `main` ends in a nil-interface panic exactly
when it passes the usage check, reads its graph, is given a decomposition with `-decomp`
that passes `Correct`, and `-det` is absent: the call `solverUpdate.Name()` in the
shortcut is not guarded.  Every other solver call is reached with its solver set. -/
theorem nil_solver_call {T : Types} (L : Lib T) (w : World) (f : Flags) :
    (main L w f).outcome = .nilPanic ↔
      ((f.cpuprofile != "" && !w.createOK f.cpuprofile) = false ∧ usageCheck f = false ∧
        (f.decomp != "") = true ∧ f.detKTest = false ∧
        ∃ dat dis, w.readFile f.graphPath = some dat ∧ w.readFile f.decomp = some dis ∧
          L.Correct
            (L.GetDecomp dis (parseInput L f dat).1 (L.Encoding (parseInput L f dat).2.1))
            (parseInput L f dat).1 = true) := by
  constructor
  · intro h
    unfold main at h
    split at h
    · simp at h
    · rename_i hprof
      split at h
      · simp at h
      · rename_i husage
        split at h
        · simp at h
        · rename_i dat hdat
          rw [Result.after_outcome] at h
          unfold afterParse at h
          split at h
          · rename_i r hr
            obtain ⟨hd, hr2⟩ := shortcut_done_inv L w f _ _ _ _ r hr
            rcases hr2 with rfl | ⟨dis, hdis, hc, rfl⟩
            · simp at h
            · refine ⟨by simpa using hprof, by simpa using husage, hd, ?_, dat, dis, hdat, hdis, hc⟩
              cases hdet : f.detKTest
              · rfl
              · rw [hdet] at h
                simp only [if_true, shortcutOutput] at h
                split at h <;> simp at h
          · rename_i su se pd pc hgo
            split at h
            · rw [Result.after_outcome] at h
              obtain ⟨h1, h2, h3⟩ := updatePath_outcome L w f _ _ _ _ _ _ h
              rcases shortcut_go_inv L w f _ _ _ _ su se pd pc hgo with
                ⟨_, hsu, _⟩ | ⟨_, hsu, hse, _⟩
              · exact absurd hsu h1
              · cases hdet : f.detKTest
                · rw [hdet] at hsu
                  exact absurd hsu h1
                · rw [hdet, h2] at hse
                  rw [h3] at hse
                  simp at hse
            · rw [Result.after_outcome] at h
              exact absurd h (freshPath_outcome L w f _ _ _)
  · rintro ⟨hprof, husage, hd, hdet, dat, dis, hdat, hdis, hc⟩
    rw [main_eq_afterParse L w f dat hprof husage hdat, Result.after_outcome]
    unfold afterParse
    rw [shortcut_correct L w f _ _ _ dis hd hdis hc, hdet]
    rfl

/-- C9, at the failing input `-graph g3 -width 3 -decomp d3` (no `-det`): the run ends
in the nil-interface panic. -/
theorem nil_solver_call_witness :
    (main toyLib toyWorld noSolverFlags).outcome = .nilPanic :=
  (nil_solver_call toyLib toyWorld noSolverFlags).2
    ⟨rfl, by decide, by decide, rfl, "abc", "xyz", rfl, rfl, rfl⟩

/-- C7: the width flag in exact and approximate mode.  Two approximate-mode runs that
differ only in `-width` (0 and 7) make their first `FindDecomp` at different bounds and
end with different decompositions and reported widths; two exact-mode runs under
`-global` that differ only in `-width` call `ComputeSubEdges` with different widths.
Without `-global`, exact mode on the fresh path does not read the flag. -/
theorem width_flag_not_ignored :
    ((main toyLib toyWorld { approxFlags with width := 0 }).trace.head?
        = some (.findDecomp 0 ⟨(0 : Nat), (0 : Nat)⟩) ∧
      (main toyLib toyWorld { approxFlags with width := 7 }).trace.head?
        = some (.findDecomp 7 ⟨(3 : Nat), (3 : Nat)⟩)) ∧
    ((main toyLib toyWorld { approxFlags with width := 0 }).trace.getLast?
        = some (.outputStanza
          (outputStanza toyLib toyWorld "DetKDecomp" ⟨(0 : Nat), (0 : Nat)⟩ (3 : Nat) "" "" 0 false)) ∧
      (main toyLib toyWorld { approxFlags with width := 7 }).trace.getLast?
        = some (.outputStanza
          (outputStanza toyLib toyWorld "DetKDecomp" ⟨(3 : Nat), (3 : Nat)⟩ (3 : Nat) "" "" 3 false))) ∧
    ((main toyLib toyWorld { exactFlags with globalBal := true, width := 1 }).trace.head?
        = some (.computeSubEdges 1) ∧
      (main toyLib toyWorld { exactFlags with globalBal := true, width := 2 }).trace.head?
        = some (.computeSubEdges 2)) ∧
    (main toyLib toyWorld { exactFlags with width := 1 }).trace
      = (main toyLib toyWorld { exactFlags with width := 2 }).trace :=
  ⟨⟨rfl, rfl⟩, ⟨rfl, rfl⟩, ⟨rfl, rfl⟩, rfl⟩

end BalancedGoUpdate
